import Mathlib

/-!
Shallow embedding of the AppleJournaltoDayOne converter (src/main.go).

The program converts an Apple Journal HTML export (a zip of `Entries/*.html`
plus a `Resources/` image folder) into a Day One import zip (a `Journal.json`
plus `photos/<uuid>.<ext>` media files).

Modelling conventions:
* Go strings are Lean `String`s; the Go standard-library string and path
  helpers used by the program (`strings.TrimSpace`, `strings.SplitN`,
  `filepath.Join`/`Clean`/`Base`/`Ext`, ...) are re-implemented below on
  `List Char` under `go*` names.
* `newDayOneUUID` draws from a random source; it is modelled as an abstract
  supply `Nat → String` indexed by an explicit counter that is threaded
  through the pipeline in the order the Go code mints UUIDs.
* The filesystem is modelled as an abstract record (`FS`): existence of a
  path (`os.Stat` / `os.IsNotExist`) and the result of `calculateMD5`.
* The external HTML-to-Markdown converter (`markdownConverter.ConvertString`)
  is an abstract function `String → Except String String`.
* A parsed goquery document is modelled structurally (`Doc`, `Child`): the
  classification performed by the `s.Is(...)` chain in `processEntryHTML`
  is reflected in the `Child` constructors, in the order the code tests them.
* Go's `time.Parse` for the two fixed layouts `"January 2, 2006"` and
  `"Jan 2, 2006"` is implemented faithfully (case-insensitive month-name
  lookup, 1-2 digit day, flexible run-of-spaces matching for literal spaces,
  4-digit year, full-consumption check, day-of-month range validation).
-/

namespace AppleJournal

/-! ## Go standard-library string helpers (on `List Char`) -/

/-- Whitespace class used by `strings.TrimSpace` (the common characters). -/
def isGoSpace (c : Char) : Bool :=
  c = ' ' || c = '\t' || c = '\n' || c = '\x0b' || c = '\x0c' || c = '\r' ||
  c = '\u0085' || c = '\u00A0'

/-- Trim leading and trailing whitespace from a character list. -/
def trimChars (l : List Char) : List Char :=
  ((l.dropWhile isGoSpace).reverse.dropWhile isGoSpace).reverse

/-- Go `strings.TrimSpace`. -/
def goTrimSpace (s : String) : String := ⟨trimChars s.data⟩

/-- Split at the first occurrence of `sep`: Go `strings.SplitN(s, sep, 2)`
returns two parts exactly when `sep` occurs. -/
def splitFirst (sep : Char) : List Char → Option (List Char × List Char)
  | [] => none
  | c :: r =>
    if c = sep then some ([], r)
    else
      match splitFirst sep r with
      | none => none
      | some (a, b) => some (c :: a, b)

/-- Go `strings.HasSuffix`. -/
def goHasSuffix (s suf : String) : Bool := suf.data.isSuffixOf s.data

/-- Go `strings.ToLower` (ASCII letters, which is all the program feeds it). -/
def goToLower (s : String) : String := ⟨s.data.map Char.toLower⟩

/-- Go `strings.TrimSuffix`. -/
def goTrimSuffix (s suf : String) : String :=
  if suf.data.isSuffixOf s.data then ⟨s.data.take (s.data.length - suf.data.length)⟩ else s

/-- Go `strings.TrimPrefix(s, ".")` as used on file extensions. -/
def goDropDot (s : String) : String :=
  match s.data with
  | '.' :: r => ⟨r⟩
  | _ => s

/-- Go `strings.ReplaceAll` for single-character patterns. -/
def goReplaceChar (s : String) (a b : Char) : String :=
  ⟨s.data.map (fun c => if c = a then b else c)⟩

/-- Go `strings.Contains` for a single-character needle. -/
def goContainsChar (s : String) (a : Char) : Bool := s.data.contains a

/-! ## Go `path/filepath` helpers -/

/-- Split a character list at every occurrence of `sep`. -/
def splitAllChar (sep : Char) : List Char → List (List Char)
  | [] => [[]]
  | c :: rest =>
    match splitAllChar sep rest with
    | [] => [[]]
    | g :: gs => if c = sep then [] :: g :: gs else (c :: g) :: gs

/-- Segment-stack step of `filepath.Clean`. -/
def cleanStep (absolute : Bool) (stack : List (List Char)) (seg : List Char) :
    List (List Char) :=
  if seg = [] ∨ seg = ['.'] then stack
  else if seg = ['.', '.'] then
    match stack.reverse with
    | [] => if absolute then [] else [seg]
    | top :: _ => if top = ['.', '.'] then stack ++ [seg] else stack.dropLast
  else stack ++ [seg]

/-- Go `filepath.Clean` (forward-slash paths). -/
def goClean (p : String) : String :=
  if p = "" then "." else
  let absolute := p.data.head? = some '/'
  let segs := splitAllChar '/' p.data
  let stack := segs.foldl (cleanStep absolute) []
  let body := (stack.intersperse ['/']).flatten
  if absolute then ⟨'/' :: body⟩
  else if body = [] then "." else ⟨body⟩

/-- Go `filepath.Join` of two elements (joins the non-empty parts, then cleans). -/
def goJoin (a b : String) : String :=
  if a = "" ∧ b = "" then ""
  else if a = "" then goClean b
  else if b = "" then goClean a
  else goClean (a ++ "/" ++ b)

/-- Go `filepath.Base`. -/
def goBase (p : String) : String :=
  if p = "" then "." else
  let l := p.data.reverse.dropWhile (· = '/')
  if l = [] then "/" else ⟨(l.takeWhile (· ≠ '/')).reverse⟩

/-- Go `filepath.Ext`: the suffix of the final element starting at its last dot. -/
def goExt (p : String) : String :=
  let seg := p.data.reverse.takeWhile (· ≠ '/')
  if seg.contains '.' then ⟨'.' :: (seg.takeWhile (· ≠ '.')).reverse⟩ else ""

/-- Go `filepath.Dir`: everything before the final element, cleaned. -/
def goDir (p : String) : String :=
  let rev := p.data.reverse
  let dirRev := rev.dropWhile (· ≠ '/')
  goClean ⟨dirRev.reverse⟩

end AppleJournal

namespace AppleJournal

/-! ## Go `time.Parse` for the two fixed layouts (src/main.go `parseAppleDate`) -/

/-- Result of `time.Date(y, m, d, 12, 0, 0, 0, time.UTC)`: a calendar instant.
The reference zone is always UTC in this program, so it is not a field. -/
structure GoTime where
  year : Nat
  month : Nat
  day : Nat
  hour : Nat
  minute : Nat
  second : Nat
deriving DecidableEq, Repr

def longMonthNames : List String :=
  ["January", "February", "March", "April", "May", "June",
   "July", "August", "September", "October", "November", "December"]

def shortMonthNames : List String :=
  ["Jan", "Feb", "Mar", "Apr", "May", "Jun",
   "Jul", "Aug", "Sep", "Oct", "Nov", "Dec"]

/-- Case-insensitive character comparison (Go `time`'s `match`, ASCII fold). -/
def ciChar (a b : Char) : Bool := a.toLower = b.toLower

/-- Case-insensitive list comparison. -/
def ciEq : List Char → List Char → Bool
  | [], [] => true
  | a :: as', b :: bs' => ciChar a b && ciEq as' bs'
  | _, _ => false

/-- Go `time`'s `lookup`: find the first table entry that is a
(case-insensitive) prefix of the value; return its 1-based index and the
remaining value. -/
def lookupMonth (i : Nat) : List String → List Char → Option (Nat × List Char)
  | [], _ => none
  | n :: rest, v =>
    if ciEq (v.take n.data.length) n.data ∧ n.data.length ≤ v.length then
      some (i, v.drop n.data.length)
    else lookupMonth (i + 1) rest v

def digitVal (c : Char) : Nat := c.toNat - 48

/-- Numeric value of a digit string (most significant first). -/
def digitsVal (l : List Char) : Nat := l.foldl (fun a c => a * 10 + digitVal c) 0

/-- Go `time`'s `getnum` with `fixed = false`: one or two digits. -/
def getnum2 : List Char → Option (Nat × List Char)
  | [] => none
  | [c₁] => if c₁.isDigit then some (digitVal c₁, []) else none
  | c₁ :: c₂ :: rest₂ =>
    if c₁.isDigit then
      (if c₂.isDigit then some (digitVal c₁ * 10 + digitVal c₂, rest₂)
       else some (digitVal c₁, c₂ :: rest₂))
    else none

/-- Go `time`'s year field for layout `2006`: exactly four digits. -/
def getnum4 : List Char → Option (Nat × List Char)
  | a :: b :: c :: d :: rest =>
    if a.isDigit ∧ b.isDigit ∧ c.isDigit ∧ d.isDigit then
      some (digitsVal [a, b, c, d], rest)
    else none
  | _ => none

/-- Go `time`'s `cutspace`. -/
def cutSpace (l : List Char) : List Char := l.dropWhile (· = ' ')

/-- Go `time`'s `skip` for a single literal space in the layout: a run of
spaces in the value matches (an empty value also passes; the following
numeric field then fails). -/
def skipSpace : List Char → Option (List Char)
  | [] => some []
  | c :: r => if c = ' ' then some (cutSpace r) else none

def isLeap (y : Nat) : Bool := y % 4 = 0 ∧ (y % 100 ≠ 0 ∨ y % 400 = 0)

/-- Go `time`'s `daysIn` (month is 1-12). -/
def daysIn (m y : Nat) : Nat :=
  if m = 2 then (if isLeap y then 29 else 28)
  else if m = 4 ∨ m = 6 ∨ m = 9 ∨ m = 11 then 30
  else 31

/-- Go `time.Parse` specialised to layout `"<Month> 2, 2006"` with the given
month-name table: month name, spaces, 1-2 digit day, comma, spaces, 4-digit
year, nothing left over, day in range. Returns `(year, month, day)`. -/
def parseMonthDayYear (names : List String) (s : List Char) : Option (Nat × Nat × Nat) :=
  match lookupMonth 1 names s with
  | none => none
  | some (m, r₁) =>
    match skipSpace r₁ with
    | none => none
    | some r₂ =>
      match getnum2 r₂ with
      | none => none
      | some (d, r₃) =>
        match r₃ with
        | ',' :: r₃' =>
          match skipSpace r₃' with
          | none => none
          | some r₄ =>
            match getnum4 r₄ with
            | some (y, []) => if 1 ≤ d ∧ d ≤ daysIn m y then some (y, m, d) else none
            | _ => none
        | _ => none

/-- The fixed ordered layout list of `parseAppleDate`:
`"January 2, 2006"` then `"Jan 2, 2006"`. -/
def tryLayouts (s : List Char) : Option (Nat × Nat × Nat) :=
  match parseMonthDayYear longMonthNames s with
  | some r => some r
  | none => parseMonthDayYear shortMonthNames s

/-- The weekday-stripping step of `parseAppleDate`: `strings.SplitN(s, ",", 2)`
and, when a comma is present, `strings.TrimSpace` of the second part. -/
def stripWeekday (s : String) : String :=
  match splitFirst ',' s.data with
  | none => s
  | some (_, rest) => goTrimSpace ⟨rest⟩

/-- src/main.go `parseAppleDate`: strip the weekday, try the two layouts, and
normalize the parsed date to noon UTC. -/
def parseAppleDate (s : String) : Option GoTime :=
  match tryLayouts (stripWeekday s).data with
  | none => none
  | some (y, m, d) => some ⟨y, m, d, 12, 0, 0⟩

/-- Go `time.Time.Format(time.RFC3339)` for the noon-UTC instants this
program produces. -/
def pad2 (n : Nat) : String := if n < 10 then "0" ++ Nat.repr n else Nat.repr n

def pad4 (n : Nat) : String :=
  if n < 10 then "000" ++ Nat.repr n
  else if n < 100 then "00" ++ Nat.repr n
  else if n < 1000 then "0" ++ Nat.repr n
  else Nat.repr n

def formatRFC3339 (t : GoTime) : String :=
  pad4 t.year ++ "-" ++ pad2 t.month ++ "-" ++ pad2 t.day ++ "T" ++
  pad2 t.hour ++ ":" ++ pad2 t.minute ++ ":" ++ pad2 t.second ++ "Z"

end AppleJournal

namespace AppleJournal

/-! ## Day One data structures (src/main.go lines 21-46) -/

/-- src/main.go `DayOnePhoto` (`Type` is rendered `typ`; width/height are not
implemented by the program). -/
structure DayOnePhoto where
  md5 : String
  typ : String
  identifier : String
  creationDate : String
deriving DecidableEq, Repr

/-- One write into `bodyMarkdownBuilder`: either a converted markdown fragment
(always of the form `TrimSpace(fragment) ++ "\n\n"`) or the photo placeholder
`"![](dayone-moment://" ++ uuid ++ ")\n\n"`. The entry's body text is the
concatenation of these writes (see `DayOneEntry.text`). -/
inductive Frag where
  | text (s : String)
  | photoRef (identifier : String)
deriving DecidableEq, Repr

def renderFrag : Frag → String
  | .text s => s
  | .photoRef id => "![](dayone-moment://" ++ id ++ ")\n\n"

def renderFrags (l : List Frag) : String := l.foldl (fun a f => a ++ renderFrag f) ""

/-- src/main.go `DayOneEntry`. The Go struct stores the final `Text` string;
here the body is stored as the builder's write sequence (`bodyFrags`) plus the
title, and `DayOneEntry.text` computes the same `Text` string the Go code
stores (lines 323-326). -/
structure DayOneEntry where
  uuid : String
  creationDate : String
  modifiedDate : String
  timeZone : String
  starred : Bool
  title : String
  bodyFrags : List Frag
  photos : List DayOnePhoto
deriving DecidableEq, Repr

/-- Lines 323-326: `entry.Text = TrimSpace(builder)`, then if a title was
found, `entry.Text = "# " + title + "\n\n" + entry.Text`. -/
def DayOneEntry.text (e : DayOneEntry) : String :=
  let body := goTrimSpace (renderFrags e.bodyFrags)
  if e.title = "" then body else "# " ++ e.title ++ "\n\n" ++ body

/-- src/main.go `DayOneJournal` (the metadata map has the single fixed entry
`version -> 1.0`). -/
structure DayOneJournal where
  metadata : List (String × String)
  entries : List DayOneEntry
deriving DecidableEq, Repr

/-! ## Abstract collaborators -/

/-- Filesystem view: `os.Stat`-existence and the result of `calculateMD5`
(`none` models an I/O error while hashing). -/
structure FS where
  fileExists : String → Bool
  md5res : String → Option String

/-- Pipeline context: filesystem, the external HTML-to-Markdown converter
(`markdownConverter.ConvertString`), and the UUID supply standing for
`newDayOneUUID` (call number `n` yields `supply n`). -/
structure Ctx where
  fs : FS
  mdConvert : String → Except String String
  supply : Nat → String

/-! ## Go-map operations (`mediaToCopy`, `allMediaToCopy`) -/

/-- Go `m[k] = v` on a string map, modelled as an association list with
replace-on-existing-key semantics. -/
def mapUpsert (m : List (String × String)) (k v : String) : List (String × String) :=
  if m.any (fun p => p.1 = k) then
    m.map (fun p => if p.1 = k then (k, v) else p)
  else m ++ [(k, v)]

/-- Go map lookup. -/
def mapGet (m : List (String × String)) (k : String) : Option String :=
  (m.find? (fun p => p.1 = k)).map (fun p => p.2)

/-- Lines 487-489: `for original, dayOnePath := range entryMedia
{ allMediaToCopy[original] = dayOnePath }`. -/
def mergeMedia (acc em : List (String × String)) : List (String × String) :=
  em.foldl (fun a kv => mapUpsert a kv.1 kv.2) acc

/-! ## Document model (the goquery view of one source HTML file) -/

/-- A direct child of `div.pageContainer` that is none of `div.pageHeader`,
`div.title`, `div.assetGrid`: the facts about it that lines 289-319 test. -/
structure ContentNode where
  isP : Bool
  isBodyTextDiv : Bool
  parentIsBodyText : Bool
  outerHtml : String
  bodyTextKids : List String
  pKids : List String
deriving DecidableEq, Repr

/-- Classification of a direct child of `div.pageContainer`, in the order the
`s.Is(...)` chain of lines 229-319 tests it. For an asset grid, the list holds
the `src` attributes of its `div.gridItem.assetType_photo img.asset_image`
elements (`none` when the attribute is absent). -/
inductive Child where
  | pageHeader (html : String)
  | titleDiv (html : String)
  | assetGrid (imgSrcs : List (Option String))
  | content (c : ContentNode)
deriving DecidableEq, Repr

/-- One parsed source document: the text of the first `div.pageHeader`, the
text of the first `div.title span.s2` (when such an element exists), and the
direct children of `div.pageContainer` in document order. -/
structure Doc where
  pageHeaderText : String
  titleSpanText : Option String
  children : List Child
deriving DecidableEq, Repr

/-! ## processEntryHTML (src/main.go lines 156-336) -/

/-- Typed failures of `processEntryHTML` (each is a logged warning followed by
an error return; the caller skips the entry). File open/parse failures of
lines 157-166 are I/O preconditions outside this model, which starts from a
parsed document. -/
inductive ProcError where
  | noDate
  | badDate
  | emptyEntry
deriving DecidableEq, Repr

/-- State of the body walk: builder contents, the pending paragraph
accumulator `currentPContent`, the photos, the `mediaToCopy` map, and the
UUID-supply counter. -/
structure BuildSt where
  frags : List Frag
  pending : String
  photos : List DayOnePhoto
  media : List (String × String)
  ctr : Nat
deriving DecidableEq, Repr

/-- Lines 212-226 `convertAndAppendP`: if the accumulator is non-empty,
convert it; on success append `TrimSpace(markdown) ++ "\n\n"` to the builder,
on failure only log; either way reset the accumulator. -/
def convertAndAppendP (conv : String → Except String String) (st : BuildSt) : BuildSt :=
  if st.pending = "" then st
  else
    match conv st.pending with
    | .error _ => { st with pending := "" }
    | .ok mdf => { st with frags := st.frags ++ [.text (goTrimSpace mdf ++ "\n\n")],
                           pending := "" }

/-- Lines 240-285: one `img.asset_image` inside an asset grid. -/
def processImg (ctx : Ctx) (htmlFilePath creationDate : String) (st : BuildSt)
    (srcAttr : Option String) : BuildSt :=
  match srcAttr with
  | none => st
  | some imgSrc =>
    if imgSrc = "" then st
    else
      let absImgSrc := goJoin (goDir htmlFilePath) imgSrc
      let originalImageName := goBase absImgSrc
      let fileExt := goToLower (goExt originalImageName)
      if ¬ (fileExt = ".png" ∨ fileExt = ".jpg" ∨ fileExt = ".jpeg" ∨ fileExt = ".gif") then st
      else if ¬ ctx.fs.fileExists absImgSrc then st
      else
        let photoUUID := ctx.supply st.ctr
        let st := { st with ctr := st.ctr + 1 }
        let dayOnePhotoZipPath := goJoin "photos" (photoUUID ++ fileExt)
        match ctx.fs.md5res absImgSrc with
        | none => st
        | some md5Hash =>
          { st with
            photos := st.photos ++ [⟨md5Hash, goDropDot fileExt, photoUUID, creationDate⟩],
            media := mapUpsert st.media absImgSrc dayOnePhotoZipPath,
            frags := st.frags ++ [.photoRef photoUUID] }

def processImgs (ctx : Ctx) (htmlFilePath creationDate : String) :
    BuildSt → List (Option String) → BuildSt
  | st, [] => st
  | st, a :: rest =>
    processImgs ctx htmlFilePath creationDate (processImg ctx htmlFilePath creationDate st a) rest

/-- Lines 307-318: accumulate each descendant's outer HTML, flushing after
each one. -/
def processParas (conv : String → Except String String) :
    BuildSt → List String → BuildSt
  | st, [] => st
  | st, h :: rest =>
    processParas conv (convertAndAppendP conv { st with pending := st.pending ++ h }) rest

/-- Lines 229-320: one direct child of `div.pageContainer`. -/
def processChild (ctx : Ctx) (htmlFilePath creationDate : String) (st : BuildSt) :
    Child → BuildSt
  | .pageHeader _ => st
  | .titleDiv _ => st
  | .assetGrid imgSrcs =>
    processImgs ctx htmlFilePath creationDate (convertAndAppendP ctx.mdConvert st) imgSrcs
  | .content c =>
    if c.isP || c.isBodyTextDiv || c.parentIsBodyText then
      convertAndAppendP ctx.mdConvert { st with pending := st.pending ++ c.outerHtml }
    else if c.bodyTextKids ≠ [] then processParas ctx.mdConvert st c.bodyTextKids
    else if c.pKids ≠ [] then processParas ctx.mdConvert st c.pKids
    else st

def processChildren (ctx : Ctx) (htmlFilePath creationDate : String) :
    BuildSt → List Child → BuildSt
  | st, [] => st
  | st, ch :: rest =>
    processChildren ctx htmlFilePath creationDate
      (processChild ctx htmlFilePath creationDate st ch) rest

/-- The whole body walk (lines 229-321), including the final
`convertAndAppendP()` after the loop. -/
def processBody (ctx : Ctx) (htmlFilePath creationDate : String) (children : List Child)
    (ctr : Nat) : BuildSt :=
  convertAndAppendP ctx.mdConvert
    (processChildren ctx htmlFilePath creationDate ⟨[], "", [], [], ctr⟩ children)

/-- Lines 196-204: fallback title from the filename
(`YYYY-MM-DD_The_Title.html` → `The Title`); empty when the first `_`-part
does not look like a date. -/
def fallbackTitle (htmlFilePath : String) : String :=
  let fn := goBase htmlFilePath
  let fn := goTrimSuffix fn (goExt fn)
  match splitFirst '_' fn.data with
  | none => ""
  | some (pre, rest) =>
    if (⟨pre⟩ : String).data.contains '-' then goReplaceChar ⟨rest⟩ '_' ' ' else ""

/-- Lines 192-204: title of the entry — the trimmed `div.title span.s2` text
when that element exists, else the filename fallback. -/
def entryTitleOf (htmlFilePath : String) (doc : Doc) : String :=
  match doc.titleSpanText with
  | some t => goTrimSpace t
  | none => fallbackTitle htmlFilePath

/-- src/main.go `processEntryHTML` (lines 156-336) on a parsed document.
Returns the Go function's `(DayOneEntry, map[string]string, error)` as an
`Except`, paired with the UUID-supply counter after the call. -/
def processEntryHTML (ctx : Ctx) (htmlFilePath : String) (doc : Doc)
    (defaultTimeZone : String) (ctr : Nat) :
    Except ProcError (DayOneEntry × List (String × String)) × Nat :=
  let entryUUID := ctx.supply ctr
  let c₁ := ctr + 1
  let dateStr := goTrimSpace doc.pageHeaderText
  if dateStr = "" then (.error .noDate, c₁)
  else
    match parseAppleDate dateStr with
    | none => (.error .badDate, c₁)
    | some creationTime =>
      let isoDate := formatRFC3339 creationTime
      let entryTitle := entryTitleOf htmlFilePath doc
      let st := processBody ctx htmlFilePath isoDate doc.children c₁
      let e : DayOneEntry :=
        ⟨entryUUID, isoDate, isoDate, defaultTimeZone, false, entryTitle, st.frags, st.photos⟩
      if e.text = "" ∧ e.photos = [] then (.error .emptyEntry, st.ctr)
      else (.ok (e, st.media), st.ctr)

end AppleJournal

namespace AppleJournal

/-! ## main (src/main.go lines 389-514) and createDayOneZip (lines 339-386) -/

/-- One event yielded by `filepath.WalkDir` over the Entries directory:
the path, the entry name, whether it is a directory, whether access failed
(`walkErr != nil`), and — for document files — the parsed document. -/
structure WalkItem where
  path : String
  name : String
  isDir : Bool
  accessErr : Bool
  doc : Doc
deriving Repr

/-- Line 475: case-insensitive `.html` / `.htm` filter. -/
def hasHtmlExt (name : String) : Bool :=
  goHasSuffix (goToLower name) ".html" || goHasSuffix (goToLower name) ".htm"

/-- Aggregation state of the walk: the journal's entries, the merged
`allMediaToCopy` map, and the UUID-supply counter. -/
structure AggSt where
  entries : List DayOneEntry
  media : List (String × String)
  ctr : Nat
deriving Repr

/-- Lines 467-493: the `WalkDir` callback folded over the walk events. An
access error is returned from the callback and stops the walk (the `Except`
error); a failed or empty entry is skipped and the walk continues; a good
entry is appended and its media map merged into `allMediaToCopy`. -/
def walkFold (ctx : Ctx) (tz : String) : AggSt → List WalkItem → Except Unit AggSt
  | st, [] => .ok st
  | st, it :: rest =>
    if it.accessErr then .error ()
    else if it.isDir then walkFold ctx tz st rest
    else if hasHtmlExt it.name then
      match processEntryHTML ctx it.path it.doc tz st.ctr with
      | (.error _, c') => walkFold ctx tz { st with ctr := c' } rest
      | (.ok (e, em), c') =>
        if e.text = "" ∧ e.photos = [] then walkFold ctx tz { st with ctr := c' } rest
        else walkFold ctx tz ⟨st.entries ++ [e], mergeMedia st.media em, c'⟩ rest
    else walkFold ctx tz st rest

/-- Failure points of `createDayOneZip`: `os.Create` of the output zip, and
creating/writing `Journal.json` inside it (lines 340-360; all returned to
`main`, which treats them fatally). Per-media-file failures (lines 363-383)
are logged and skipped. -/
structure ZipEnv where
  createOk : Bool
  journalWriteOk : Bool
  entryCreateOk : String → Bool
  openOk : String → Bool
  copyOk : String → Bool

/-- src/main.go `createDayOneZip`: fails only on creating the archive or
writing `Journal.json`; each media file that cannot be created, opened or
copied is skipped. Returns the (source, destination) pairs actually copied. -/
def createDayOneZip (z : ZipEnv) (journal : DayOneJournal)
    (mediaToCopy : List (String × String)) : Except Unit (List (String × String)) :=
  if ¬ z.createOk then .error ()
  else if ¬ z.journalWriteOk then .error ()
  else .ok (mediaToCopy.filter
      (fun kv => z.entryCreateOk kv.2 && z.openOk kv.1 && z.copyOk kv.1))

/-- Environment of one run, at the boundary the spec draws: CLI parsing and
temp-directory lifecycle are outside; `unzipOk` is the outcome of `unzip`,
`entriesDirExists` the outcome of the `Entries`-directory check after
root-folder auto-detection (lines 427-452), `walkItems` the events the
directory walker yields. -/
structure Env where
  ctx : Ctx
  tz : String
  unzipOk : Bool
  entriesDirExists : Bool
  walkItems : List WalkItem
  zipEnv : ZipEnv

/-- The ways `main` ends: a `log.Fatalf` (non-zero exit) at one of its four
call sites, or success with the journal, the merged media map, and the pairs
copied into the archive. -/
inductive FatalKind where
  | unzipFail
  | entriesMissing
  | walkFail
  | createZipFail
deriving DecidableEq, Repr

inductive RunResult where
  | fatal (k : FatalKind)
  | success (journal : DayOneJournal) (media copied : List (String × String))
deriving Repr

/-- src/main.go `main` from after CLI/temp-dir setup: unzip (fatal on error,
line 419), `Entries` check (fatal, line 451), the walk (a propagated access
error is fatal, lines 470 and 496), then `createDayOneZip` (fatal on error,
line 509). -/
def runMain (env : Env) : RunResult :=
  if ¬ env.unzipOk then .fatal .unzipFail
  else if ¬ env.entriesDirExists then .fatal .entriesMissing
  else
    match walkFold env.ctx env.tz ⟨[], [], 0⟩ env.walkItems with
    | .error _ => .fatal .walkFail
    | .ok st =>
      let journal : DayOneJournal := ⟨[("version", "1.0")], st.entries⟩
      match createDayOneZip env.zipEnv journal st.media with
      | .error _ => .fatal .createZipFail
      | .ok copied => .success journal st.media copied

end AppleJournal
namespace AppleJournal

/-! ## Predicates and fixtures used in the statements -/

/-- Plain, unstyled text: a fragment with no markup characters. -/
def isPlainText (s : String) : Bool :=
  s.data.all (fun c => c ≠ '<' && c ≠ '>' && c ≠ '&')

/-- Modelled from the spec: the Markup Transformer's converter is the external
library `github.com/JohannesKaufmann/html-to-markdown`, whose code is not part
of this repository; spec §4.3 fixes its contract on trivial input — converting
a fragment that is already plain, unstyled text returns that text. -/
def PlainTextConverter (conv : String → Except String String) : Prop :=
  ∀ s, isPlainText s = true → conv s = .ok s

/-- The properties of `newDayOneUUID`'s minted tokens that destination-path
construction relies on: no token is repeated within one run, and a token
contains no path separator (the Go function returns 32 uppercase hexadecimal
characters). -/
def WellFormedSupply (supply : Nat → String) : Prop :=
  Function.Injective supply ∧ ∀ n, '/' ∉ (supply n).data

/-- The fixed extension allow-set of lines 250-255. -/
def allowExts : List String := [".png", ".jpg", ".jpeg", ".gif"]

/-- The photo identifiers referenced by placeholder tokens in a body. -/
def fragPhotoIds (l : List Frag) : List String :=
  l.filterMap (fun f => match f with | .photoRef id => some id | .text _ => none)

/-- Referential integrity of a body-walk state: every placeholder token
written to the builder references a photo already appended to the entry. -/
def FragsPhotosOk (st : BuildSt) : Prop :=
  ∀ id ∈ fragPhotoIds st.frags, id ∈ st.photos.map DayOnePhoto.identifier

/-- Distinct-destination invariant for the media maps: keys are pairwise
distinct, destination values are pairwise distinct, and every destination is
`photos/<token><ext>` for a token minted in the index window `[lo, hi)` and an
allow-set extension. -/
def MediaDestsOk (supply : Nat → String) (lo hi : Nat) (m : List (String × String)) : Prop :=
  List.Pairwise (fun a b => a.1 ≠ b.1) m ∧
  List.Pairwise (fun a b => a.2 ≠ b.2) m ∧
  ∀ kv ∈ m, ∃ i ext, lo ≤ i ∧ i < hi ∧ ext ∈ allowExts ∧
    kv.2 = goJoin "photos" (supply i ++ ext)

/-- A source document consisting of a date header and one asset grid with a
single image reference. -/
def imgDoc (hdr src : String) : Doc := ⟨hdr, none, [.assetGrid [some src]]⟩

/-- Concrete filesystem: every path exists and hashes successfully. -/
def fsAll : FS := ⟨fun _ => true, fun _ => some "d41d8cd98f00b204e9800998ecf8427e"⟩

/-- Concrete converter: the identity (satisfies `PlainTextConverter`). -/
def convId : String → Except String String := fun s => .ok s

/-- Concrete injective, separator-free UUID supply. -/
def supplyA : Nat → String := fun n => ⟨List.replicate (n + 1) 'A'⟩

def ctx0 : Ctx := ⟨fsAll, convId, supplyA⟩

/-- Document with a date header only; the title comes from the filename. -/
def docPlain : Doc := ⟨"Wednesday, May 14, 2025", none, []⟩

/-- Document with a date header, a title element and one paragraph. -/
def docPara : Doc :=
  ⟨"Wednesday, May 14, 2025", some "Morning Walk",
   [.content ⟨true, false, false, "Felt great today.", [], []⟩]⟩

/-- Zip environment in which everything succeeds. -/
def zipOk : ZipEnv := ⟨true, true, fun _ => true, fun _ => true, fun _ => true⟩

/-- Document whose header text fails date parsing. -/
def docBadDate : Doc :=
  ⟨"garbage text", none, [.content ⟨true, false, false, "Some text.", [], []⟩]⟩

/-- Run environment whose walk reports an access error on one path while the
archive extraction, `Entries` detection and archive creation all succeed. -/
def envWalkErr : Env :=
  ⟨ctx0, "UTC", true, true,
   [⟨"Entries/a.html", "a.html", false, true, docPlain⟩], zipOk⟩

/-- Run environment with one unparseable document and one good document. -/
def envMixed : Env :=
  ⟨ctx0, "UTC", true, true,
   [⟨"Entries/bad.html", "bad.html", false, false, docBadDate⟩,
    ⟨"Entries/good.html", "good.html", false, false, docPara⟩], zipOk⟩

/-- Run environment with two single-image documents (distinct images). -/
def envC10 : Env :=
  ⟨ctx0, "UTC", true, true,
   [⟨"Entries/a.html", "a.html", false, false,
     imgDoc "Wednesday, May 14, 2025" "../Resources/a.png"⟩,
    ⟨"Entries/b.html", "b.html", false, false,
     imgDoc "Tuesday, December 12, 2023" "../Resources/b.png"⟩],
   zipOk⟩

/-- Document with a date header and one paragraph but no title element (and
used with filenames that yield no fallback title). -/
def docNoTitle : Doc :=
  ⟨"Wednesday, May 14, 2025", none, [.content ⟨true, false, false, "Felt great today.", [], []⟩]⟩

end AppleJournal
namespace AppleJournal

/-! ## General lemmas about the string helpers -/

theorem dropWhile_dropWhile (p : Char → Bool) (l : List Char) :
    (l.dropWhile p).dropWhile p = l.dropWhile p := by
  induction l with
  | nil => rfl
  | cons a l ih =>
    by_cases h : p a
    · simpa [List.dropWhile_cons, h] using ih
    · simp [List.dropWhile_cons, h]

theorem dropWhile_eq_self_of_prefix (p : Char → Bool) {m t : List Char}
    (hm : m.dropWhile p = m) (ht : ∃ r, t ++ r = m) : t.dropWhile p = t := by
  rcases ht with ⟨r, hr⟩
  subst hr
  cases t with
  | nil => rfl
  | cons a t' =>
    have h0 : 0 < ((a :: t') ++ r).length := by simp
    have hpa : ¬ p a = true := by
      have h1 := List.dropWhile_eq_self_iff.mp hm h0
      simpa using h1
    simp [List.dropWhile_cons, hpa]

theorem trimChars_sublist (l : List Char) : List.Sublist (trimChars l) l := by
  have h1 : List.Sublist ((l.dropWhile isGoSpace).reverse.dropWhile isGoSpace)
      (l.dropWhile isGoSpace).reverse := List.dropWhile_sublist _
  have h2 := h1.reverse
  rw [List.reverse_reverse] at h2
  exact h2.trans (List.dropWhile_sublist _)

theorem trimChars_trimChars (l : List Char) : trimChars (trimChars l) = trimChars l := by
  have hm : (l.dropWhile isGoSpace).dropWhile isGoSpace = l.dropWhile isGoSpace :=
    dropWhile_dropWhile _ _
  have hpre : ∃ r, trimChars l ++ r = l.dropWhile isGoSpace := by
    rcases List.dropWhile_suffix (l := (l.dropWhile isGoSpace).reverse) isGoSpace with ⟨s, hs⟩
    exact ⟨s.reverse, by
      show ((l.dropWhile isGoSpace).reverse.dropWhile isGoSpace).reverse ++ s.reverse
          = l.dropWhile isGoSpace
      rw [← List.reverse_append, hs, List.reverse_reverse]⟩
  have h1 : (trimChars l).dropWhile isGoSpace = trimChars l :=
    dropWhile_eq_self_of_prefix _ hm hpre
  have h2 : (trimChars l).reverse.dropWhile isGoSpace = (trimChars l).reverse := by
    unfold trimChars
    rw [List.reverse_reverse]
    exact dropWhile_dropWhile _ _
  calc trimChars (trimChars l)
      = (((trimChars l).dropWhile isGoSpace).reverse.dropWhile isGoSpace).reverse := rfl
    _ = (((trimChars l)).reverse.dropWhile isGoSpace).reverse := by rw [h1]
    _ = ((trimChars l).reverse).reverse := by rw [h2]
    _ = trimChars l := List.reverse_reverse _

theorem goTrimSpace_idem (s : String) : goTrimSpace (goTrimSpace s) = goTrimSpace s :=
  congrArg String.mk (trimChars_trimChars s.data)

theorem isPlainText_goTrimSpace {s : String} (h : isPlainText s = true) :
    isPlainText (goTrimSpace s) = true := by
  unfold isPlainText at *
  rw [List.all_eq_true] at *
  intro c hc
  exact h c ((trimChars_sublist s.data).mem hc)

theorem heading_ne_empty (t : String) : "# " ++ t ++ "\n\n" ≠ "" := by
  intro h
  have h2 : ("# " ++ t ++ "\n\n").data = ("" : String).data := congrArg String.data h
  rw [String.data_append, String.data_append] at h2
  simp at h2

/-! ## Claim C7 -/

/-- Claim C7: the Markup Transformer is idempotent on plain, unstyled text.
For any converter satisfying the spec's plain-text contract, flushing a plain
pending fragment appends exactly the trimmed text (plus the blank-line
separator the code always adds), and flushing that trimmed text again appends
the same text: re-feeding plain text reproduces it up to whitespace trimming. -/
theorem c7_transformer_idempotent_plain
    (conv : String → Except String String) (st : BuildSt) (s : String)
    (hconv : PlainTextConverter conv) (hplain : isPlainText s = true)
    (hne : goTrimSpace s ≠ "") :
    convertAndAppendP conv { st with pending := s } =
      { st with pending := "", frags := st.frags ++ [.text (goTrimSpace s ++ "\n\n")] } ∧
    convertAndAppendP conv { st with pending := goTrimSpace s } =
      { st with pending := "", frags := st.frags ++ [.text (goTrimSpace s ++ "\n\n")] } := by
  have hs : s ≠ "" := by
    intro h
    apply hne
    rw [h]
    rfl
  obtain ⟨fr, pe, ph, me, ct⟩ := st
  constructor
  · simp [convertAndAppendP, hs, hconv s hplain]
  · have hplain' := isPlainText_goTrimSpace hplain
    simp [convertAndAppendP, hne, hconv _ hplain', goTrimSpace_idem]

/-- Witness for C7: the identity converter on a concrete plain fragment. -/
theorem c7_witness :
    convertAndAppendP convId ⟨[], " hello world ", [], [], 0⟩ =
      ⟨[.text "hello world\n\n"], "", [], [], 0⟩ ∧
    convertAndAppendP convId ⟨[], "hello world", [], [], 0⟩ =
      ⟨[.text "hello world\n\n"], "", [], [], 0⟩ := by
  have h := c7_transformer_idempotent_plain convId ⟨[], "", [], [], 0⟩ " hello world "
    (fun _ _ => rfl) (by decide) (by decide)
  exact ⟨h.1, h.2⟩

/-! ## Claim C4 -/

/-- Claim C4: an image reference whose resolved path's lowercased extension
lies outside the allow-set {png, jpg, jpeg, gif} changes nothing: no Photo is
appended, no CopyInstruction is recorded, no placeholder is written and no
identifier is consumed — whatever the filesystem says about the path, and
without any error (the entry and the run continue). -/
theorem c4_bad_extension_dropped (ctx : Ctx) (htmlFilePath creationDate : String)
    (st : BuildSt) (imgSrc : String) (hsrc : imgSrc ≠ "")
    (hext : ¬ (goToLower (goExt (goBase (goJoin (goDir htmlFilePath) imgSrc))) = ".png" ∨
        goToLower (goExt (goBase (goJoin (goDir htmlFilePath) imgSrc))) = ".jpg" ∨
        goToLower (goExt (goBase (goJoin (goDir htmlFilePath) imgSrc))) = ".jpeg" ∨
        goToLower (goExt (goBase (goJoin (goDir htmlFilePath) imgSrc))) = ".gif")) :
    processImg ctx htmlFilePath creationDate st (some imgSrc) = st := by
  simp [processImg, hsrc, hext]

/-- Witness for C4: a `.mp4` reference is dropped even though the filesystem
reports the file as existing. -/
theorem c4_witness :
    processImg ctx0 "Entries/a.html" "2025-05-14T12:00:00Z" ⟨[], "", [], [], 0⟩
      (some "../Resources/movie.mp4") = ⟨[], "", [], [], 0⟩ ∧
    ctx0.fs.fileExists (goJoin (goDir "Entries/a.html") "../Resources/movie.mp4") = true :=
  ⟨c4_bad_extension_dropped ctx0 "Entries/a.html" "2025-05-14T12:00:00Z" ⟨[], "", [], [], 0⟩
    "../Resources/movie.mp4" (by decide) (by decide), rfl⟩

/-! ## Claim C9 -/

/-- Claim C9: the empty-entry check happens after the title heading is
prepended. A document whose processing yields a non-empty title but an empty
body and no photos is emitted as a valid Entry whose body text is exactly the
heading line built from the title, not rejected as empty. -/
theorem c9_title_only_entry_valid (ctx : Ctx) (p : String) (doc : Doc) (tz : String)
    (c : Nat) (t : GoTime)
    (hne : goTrimSpace doc.pageHeaderText ≠ "")
    (hdate : parseAppleDate (goTrimSpace doc.pageHeaderText) = some t)
    (htitle : entryTitleOf p doc ≠ "")
    (hfr : (processBody ctx p (formatRFC3339 t) doc.children (c + 1)).frags = [])
    (hph : (processBody ctx p (formatRFC3339 t) doc.children (c + 1)).photos = []) :
    ∃ e m c', processEntryHTML ctx p doc tz c = (.ok (e, m), c') ∧
      e.text = "# " ++ entryTitleOf p doc ++ "\n\n" ∧ e.photos = [] := by
  simp [processEntryHTML, hne, hdate, hfr, hph]
  have h0 : goTrimSpace (renderFrags ([] : List Frag)) = "" := rfl
  have htext : (⟨ctx.supply c, formatRFC3339 t, formatRFC3339 t, tz, false,
      entryTitleOf p doc, [], []⟩ : DayOneEntry).text
      = "# " ++ entryTitleOf p doc ++ "\n\n" := by
    simp [DayOneEntry.text, h0, htitle]
  rw [htext, if_neg (heading_ne_empty (entryTitleOf p doc))]
  exact ⟨_, ⟨_, _, rfl⟩, htext, rfl⟩

end AppleJournal
namespace AppleJournal

/-- Witness for C9: a document with only a date header, processed under a
filename carrying a date-like prefix and a title part, is emitted with the
heading-only body. -/
theorem c9_witness :
    ∃ e m c', processEntryHTML ctx0 "Entries/2025-05-14_Morning_Walk.html" docPlain "UTC" 0 =
        (.ok (e, m), c') ∧
      e.text = "# " ++ entryTitleOf "Entries/2025-05-14_Morning_Walk.html" docPlain ++ "\n\n" ∧
      e.photos = [] :=
  c9_title_only_entry_valid ctx0 "Entries/2025-05-14_Morning_Walk.html" docPlain "UTC" 0
    ⟨2025, 5, 14, 12, 0, 0⟩ (by decide) (by decide) (by decide) (by decide) (by decide)

/-! ## Claim C1 -/

/-- Invariant of the aggregation loop: every entry ever appended to the
journal is non-empty. -/
theorem walkFold_entries_inv (ctx : Ctx) (tz : String) :
    ∀ (items : List WalkItem) (st st' : AggSt),
      (∀ e ∈ st.entries, ¬ (e.text = "" ∧ e.photos = [])) →
      walkFold ctx tz st items = .ok st' →
      ∀ e ∈ st'.entries, ¬ (e.text = "" ∧ e.photos = []) := by
  intro items
  induction items with
  | nil =>
    intro st st' hinv h
    simp [walkFold] at h
    subst h
    exact hinv
  | cons it rest ih =>
    intro st st' hinv h
    unfold walkFold at h
    by_cases ha : it.accessErr = true
    · simp [ha] at h
    · by_cases hd : it.isDir = true
      · simp [ha, hd] at h
        exact ih _ _ hinv h
      · by_cases hh : hasHtmlExt it.name = true
        · simp only [ha, hd, hh, Bool.false_eq_true, if_false, if_true] at h
          cases hp : processEntryHTML ctx it.path it.doc tz st.ctr with
          | mk res c' =>
            rw [hp] at h
            cases res with
            | error pe =>
              simp at h
              exact ih { st with ctr := c' } st' hinv h
            | ok pr =>
              obtain ⟨e, em⟩ := pr
              by_cases hg : e.text = "" ∧ e.photos = []
              · simp [hg] at h
                exact ih { st with ctr := c' } st' hinv h
              · simp [hg] at h
                refine ih _ _ ?_ h
                intro e' he'
                rcases List.mem_append.mp he' with h1 | h1
                · exact hinv e' h1
                · rw [List.mem_singleton.mp h1]
                  exact hg
        · simp [ha, hd, hh] at h
          exact ih _ _ hinv h

/-- Claim C1: no empty Entry is ever emitted. (1) `processEntryHTML` never
returns an Entry with empty body text and no photos; (2) whenever the built
entry is empty it returns the empty-entry error instead; (3) the aggregator
never puts an empty entry into the journal. -/
theorem c1_no_empty_entry_emitted :
    (∀ (ctx : Ctx) (p : String) (doc : Doc) (tz : String) (c : Nat) e m c',
        processEntryHTML ctx p doc tz c = (.ok (e, m), c') →
        ¬ (e.text = "" ∧ e.photos = [])) ∧
    (∀ (ctx : Ctx) (p : String) (doc : Doc) (tz : String) (c : Nat) (t : GoTime),
        goTrimSpace doc.pageHeaderText ≠ "" →
        parseAppleDate (goTrimSpace doc.pageHeaderText) = some t →
        (⟨ctx.supply c, formatRFC3339 t, formatRFC3339 t, tz, false, entryTitleOf p doc,
          (processBody ctx p (formatRFC3339 t) doc.children (c + 1)).frags,
          (processBody ctx p (formatRFC3339 t) doc.children (c + 1)).photos⟩ : DayOneEntry).text
          = "" →
        (processBody ctx p (formatRFC3339 t) doc.children (c + 1)).photos = [] →
        processEntryHTML ctx p doc tz c =
          (.error .emptyEntry, (processBody ctx p (formatRFC3339 t) doc.children (c + 1)).ctr)) ∧
    (∀ (env : Env) j med cop, runMain env = .success j med cop →
        ∀ e ∈ j.entries, ¬ (e.text = "" ∧ e.photos = [])) := by
  refine ⟨?_, ?_, ?_⟩
  · intro ctx p doc tz c e m c' h
    by_cases h1 : goTrimSpace doc.pageHeaderText = ""
    · simp [processEntryHTML, h1] at h
    · cases h2 : parseAppleDate (goTrimSpace doc.pageHeaderText) with
      | none => simp [processEntryHTML, h1, h2] at h
      | some t =>
        simp only [processEntryHTML, h1, h2, if_false] at h
        split at h
        · simp at h
        next hguard =>
          simp only [Prod.mk.injEq, Except.ok.injEq] at h
          obtain ⟨⟨he, _⟩, _⟩ := h
          rw [← he]
          exact hguard
  · intro ctx p doc tz c t hne hdate htext hph
    simp only [processEntryHTML, hne, hdate, if_false]
    rw [if_pos ⟨htext, hph⟩]
  · intro env j med cop h
    unfold runMain at h
    by_cases h1 : env.unzipOk = true
    · by_cases h2 : env.entriesDirExists = true
      · simp only [h1, h2, not_true, if_false] at h
        cases hw : walkFold env.ctx env.tz ⟨[], [], 0⟩ env.walkItems with
        | error er => rw [hw] at h; simp at h
        | ok st =>
          rw [hw] at h
          cases hz : createDayOneZip env.zipEnv ⟨[("version", "1.0")], st.entries⟩ st.media with
          | error er => simp [hz] at h
          | ok copied =>
            simp [hz] at h
            obtain ⟨hj, _, _⟩ := h
            rw [← hj]
            refine walkFold_entries_inv env.ctx env.tz env.walkItems ⟨[], [], 0⟩ st ?_ hw
            intro e he
            simp at he
      · simp [h1, h2] at h
    · simp [h1] at h

/-- Witness for C1 on a concrete successful entry. -/
theorem c1_witness :
    ∀ e m c', processEntryHTML ctx0 "Entries/2025-05-14_Morning_Walk.html" docPlain "UTC" 0 =
        (.ok (e, m), c') → ¬ (e.text = "" ∧ e.photos = []) :=
  fun e m c' h =>
    c1_no_empty_entry_emitted.1 ctx0 "Entries/2025-05-14_Morning_Walk.html" docPlain "UTC" 0
      e m c' h

end AppleJournal
namespace AppleJournal

/-! ## Claim C8 -/

theorem splitFirst_append (sep : Char) (a b : List Char) (ha : sep ∉ a) :
    splitFirst sep (a ++ sep :: b) = some (a, b) := by
  induction a with
  | nil => simp [splitFirst]
  | cons c a ih =>
    have hc : ¬ c = sep := fun h => ha (h ▸ List.mem_cons_self c a)
    have ha' : sep ∉ a := fun h => ha (List.mem_cons_of_mem _ h)
    simp [splitFirst, hc, ih ha']

/-- Claim C8: (1) when the title element is absent, the fallback title is
derived from the source filename — the extension is stripped, the part before
the first underscore is checked for a date-like `-`, and the remainder has its
underscore separators converted to spaces; (2) having no title at all (no
element, no derivable fallback) never fails the entry: provided the date
parses and the processed content is non-empty, the entry is emitted with an
empty title. -/
theorem c8_fallback_title_and_optional :
    (∀ (path : String) (pre rest : List Char),
        (goTrimSuffix (goBase path) (goExt (goBase path))).data = pre ++ '_' :: rest →
        '_' ∉ pre → pre.contains '-' = true →
        fallbackTitle path = goReplaceChar ⟨rest⟩ '_' ' ') ∧
    (∀ (ctx : Ctx) (p : String) (doc : Doc) (tz : String) (c : Nat) (t : GoTime),
        doc.titleSpanText = none → fallbackTitle p = "" →
        goTrimSpace doc.pageHeaderText ≠ "" →
        parseAppleDate (goTrimSpace doc.pageHeaderText) = some t →
        ¬ (goTrimSpace (renderFrags
              (processBody ctx p (formatRFC3339 t) doc.children (c + 1)).frags) = "" ∧
           (processBody ctx p (formatRFC3339 t) doc.children (c + 1)).photos = []) →
        ∃ e m c', processEntryHTML ctx p doc tz c = (.ok (e, m), c') ∧ e.title = "") := by
  constructor
  · intro path pre rest h hnu hcd
    have hs : splitFirst '_' (goTrimSuffix (goBase path) (goExt (goBase path))).data
        = some (pre, rest) := by
      rw [h]
      exact splitFirst_append '_' pre rest hnu
    have hmem : '-' ∈ pre := by simpa using hcd
    simp [fallbackTitle, hs, hmem]
  · intro ctx p doc tz c t hts hfb hne hdate hnonempty
    have htitle : entryTitleOf p doc = "" := by simp [entryTitleOf, hts, hfb]
    have htext : (⟨ctx.supply c, formatRFC3339 t, formatRFC3339 t, tz, false,
        entryTitleOf p doc,
        (processBody ctx p (formatRFC3339 t) doc.children (c + 1)).frags,
        (processBody ctx p (formatRFC3339 t) doc.children (c + 1)).photos⟩ : DayOneEntry).text
        = goTrimSpace (renderFrags (processBody ctx p (formatRFC3339 t) doc.children (c + 1)).frags) := by
      simp [DayOneEntry.text, htitle]
    simp only [processEntryHTML, hne, hdate, if_false]
    rw [if_neg]
    · exact ⟨_, _, _, rfl, htitle⟩
    · rw [htext]
      exact hnonempty

/-- Witness for C8: the sample filename yields the fallback title
`Morning Walk`, and a title-less document is still emitted. -/
theorem c8_witness :
    fallbackTitle "Entries/2025-05-14_Morning_Walk.html" = "Morning Walk" ∧
    ∃ e m c', processEntryHTML ctx0 "Entries/untitled.html" docNoTitle "UTC" 0 =
        (.ok (e, m), c') ∧ e.title = "" :=
  ⟨(c8_fallback_title_and_optional.1 "Entries/2025-05-14_Morning_Walk.html"
      "2025-05-14".data "Morning_Walk".data (by decide) (by decide) (by decide)).trans rfl,
   c8_fallback_title_and_optional.2 ctx0 "Entries/untitled.html" docNoTitle "UTC" 0
      ⟨2025, 5, 14, 12, 0, 0⟩ rfl (by decide) (by decide) (by decide) (by decide)⟩

end AppleJournal
namespace AppleJournal

/-! ## Claim C6 -/

theorem fragPhotoIds_append (a b : List Frag) :
    fragPhotoIds (a ++ b) = fragPhotoIds a ++ fragPhotoIds b := by
  simp [fragPhotoIds]

theorem fragsPhotosOk_convert (conv : String → Except String String) (st : BuildSt)
    (h : FragsPhotosOk st) : FragsPhotosOk (convertAndAppendP conv st) := by
  unfold convertAndAppendP
  split
  · exact h
  · split
    · exact h
    · intro id hid
      rw [fragPhotoIds_append] at hid
      rcases List.mem_append.mp hid with h1 | h1
      · exact h id h1
      · simp [fragPhotoIds] at h1
  
theorem fragsPhotosOk_processImg (ctx : Ctx) (p cd : String) (st : BuildSt)
    (a : Option String) (h : FragsPhotosOk st) : FragsPhotosOk (processImg ctx p cd st a) := by
  cases a with
  | none => exact h
  | some src =>
    by_cases h1 : src = ""
    · simpa [processImg, h1] using h
    · by_cases h2 : goToLower (goExt (goBase (goJoin (goDir p) src))) = ".png" ∨
          goToLower (goExt (goBase (goJoin (goDir p) src))) = ".jpg" ∨
          goToLower (goExt (goBase (goJoin (goDir p) src))) = ".jpeg" ∨
          goToLower (goExt (goBase (goJoin (goDir p) src))) = ".gif"
      · by_cases h3 : ctx.fs.fileExists (goJoin (goDir p) src) = true
        · cases h4 : ctx.fs.md5res (goJoin (goDir p) src) with
          | none => simpa [processImg, h1, h2, h3, h4] using h
          | some md5Hash =>
            simp only [processImg, h1, h2, h3, h4, not_true, not_false_iff, if_false, if_true,
              ite_false, ite_true]
            intro id hid
            rw [fragPhotoIds_append] at hid
            rcases List.mem_append.mp hid with h5 | h5
            · have := h id h5
              rw [List.map_append]
              exact List.mem_append.mpr (Or.inl this)
            · simp [fragPhotoIds] at h5
              rw [List.map_append, h5]
              simp
        · simpa [processImg, h1, h2, h3] using h
      · simpa [processImg, h1, h2] using h
  
theorem fragsPhotosOk_processImgs (ctx : Ctx) (p cd : String) :
    ∀ (l : List (Option String)) (st : BuildSt), FragsPhotosOk st →
      FragsPhotosOk (processImgs ctx p cd st l) := by
  intro l
  induction l with
  | nil => intro st h; exact h
  | cons a rest ih =>
    intro st h
    exact ih _ (fragsPhotosOk_processImg ctx p cd st a h)

theorem fragsPhotosOk_processParas (conv : String → Except String String) :
    ∀ (l : List String) (st : BuildSt), FragsPhotosOk st →
      FragsPhotosOk (processParas conv st l) := by
  intro l
  induction l with
  | nil => intro st h; exact h
  | cons a rest ih =>
    intro st h
    exact ih _ (fragsPhotosOk_convert conv _ h)

theorem fragsPhotosOk_processChild (ctx : Ctx) (p cd : String) (st : BuildSt)
    (ch : Child) (h : FragsPhotosOk st) : FragsPhotosOk (processChild ctx p cd st ch) := by
  cases ch with
  | pageHeader html => exact h
  | titleDiv html => exact h
  | assetGrid imgs =>
    exact fragsPhotosOk_processImgs ctx p cd imgs _ (fragsPhotosOk_convert _ _ h)
  | content c =>
    simp only [processChild]
    split
    · exact fragsPhotosOk_convert _ _ h
    · split
      · exact fragsPhotosOk_processParas _ _ _ h
      · split
        · exact fragsPhotosOk_processParas _ _ _ h
        · exact h

theorem fragsPhotosOk_processChildren (ctx : Ctx) (p cd : String) :
    ∀ (l : List Child) (st : BuildSt), FragsPhotosOk st →
      FragsPhotosOk (processChildren ctx p cd st l) := by
  intro l
  induction l with
  | nil => intro st h; exact h
  | cons ch rest ih =>
    intro st h
    exact ih _ (fragsPhotosOk_processChild ctx p cd st ch h)

theorem fragsPhotosOk_processBody (ctx : Ctx) (p cd : String) (children : List Child)
    (ctr : Nat) : FragsPhotosOk (processBody ctx p cd children ctr) := by
  refine fragsPhotosOk_convert _ _ ?_
  refine fragsPhotosOk_processChildren ctx p cd children _ ?_
  intro id hid
  simp [fragPhotoIds] at hid

/-- Claim C6: every placeholder token in an emitted Entry's body references a
Photo present in that Entry's media sequence — the photo is appended exactly
when its placeholder is written. -/
theorem c6_placeholder_integrity (ctx : Ctx) (p : String) (doc : Doc) (tz : String)
    (c : Nat) (e : DayOneEntry) (m : List (String × String)) (c' : Nat)
    (h : processEntryHTML ctx p doc tz c = (.ok (e, m), c')) :
    ∀ id, id ∈ fragPhotoIds e.bodyFrags → id ∈ e.photos.map DayOnePhoto.identifier := by
  by_cases h1 : goTrimSpace doc.pageHeaderText = ""
  · simp [processEntryHTML, h1] at h
  · cases h2 : parseAppleDate (goTrimSpace doc.pageHeaderText) with
    | none => simp [processEntryHTML, h1, h2] at h
    | some t =>
      simp only [processEntryHTML, h1, h2, if_false] at h
      split at h
      · simp at h
      next hguard =>
        simp only [Prod.mk.injEq, Except.ok.injEq] at h
        obtain ⟨⟨he, _⟩, _⟩ := h
        rw [← he]
        exact fragsPhotosOk_processBody ctx p (formatRFC3339 t) doc.children (c + 1)

/-- Witness for C6 on a concrete entry with one photo. -/
theorem c6_witness :
    "AA" ∈ ([⟨"d41d8cd98f00b204e9800998ecf8427e", "png", "AA", "2025-05-14T12:00:00Z"⟩] :
        List DayOnePhoto).map DayOnePhoto.identifier :=
  c6_placeholder_integrity ctx0 "Entries/a.html"
    (imgDoc "Wednesday, May 14, 2025" "../Resources/img.png") "UTC" 0
    ⟨"A", "2025-05-14T12:00:00Z", "2025-05-14T12:00:00Z", "UTC", false, "",
      [.photoRef "AA"],
      [⟨"d41d8cd98f00b204e9800998ecf8427e", "png", "AA", "2025-05-14T12:00:00Z"⟩]⟩
    [("Resources/img.png", "photos/AA.png")] 2 rfl "AA" (by decide)

end AppleJournal
namespace AppleJournal

/-! ## Claim C2: soundness of the layout parser -/

theorem skipSpace_sound {s r : List Char} (h : skipSpace s = some r) :
    ∃ sp, s = sp ++ r ∧ ∀ c ∈ sp, c = ' ' := by
  cases s with
  | nil =>
    simp [skipSpace] at h
    exact ⟨[], by simp [h], by simp⟩
  | cons c s' =>
    simp only [skipSpace] at h
    by_cases hc : c = ' '
    · rw [if_pos hc] at h
      have hr : r = s'.dropWhile (fun x => x = ' ') := by
        injection h with h'
        exact h'.symm
    
      refine ⟨c :: s'.takeWhile (fun x => x = ' '), ?_, ?_⟩
      · rw [hr, List.cons_append, List.takeWhile_append_dropWhile]
      · intro x hx
        rcases List.mem_cons.mp hx with h1 | h1
        · rw [h1]; exact hc
        · simpa using List.mem_takeWhile_imp h1
    · rw [if_neg hc] at h
      simp at h

theorem getnum2_sound {s : List Char} {d : Nat} {r : List Char}
    (h : getnum2 s = some (d, r)) :
    ∃ ds, s = ds ++ r ∧ ds ≠ [] ∧ ds.length ≤ 2 ∧ (∀ c ∈ ds, c.isDigit = true) ∧
      digitsVal ds = d := by
  cases s with
  | nil => simp [getnum2] at h
  | cons c₁ s' =>
    cases s' with
    | nil =>
      simp only [getnum2] at h
      by_cases h1 : c₁.isDigit = true
      · rw [if_pos h1] at h
        obtain ⟨hd, hr⟩ : digitVal c₁ = d ∧ ([] : List Char) = r := by
          constructor <;> [injection h with h'; injection h with h'] <;>
            [exact congrArg Prod.fst h'; exact congrArg Prod.snd h']
        exact ⟨[c₁], by rw [← hr]; simp, by simp, by simp, by simpa using h1,
          by simp [digitsVal, hd]⟩
      · rw [if_neg h1] at h
        simp at h
    | cons c₂ s'' =>
      simp only [getnum2] at h
      by_cases h1 : c₁.isDigit = true
      · rw [if_pos h1] at h
        by_cases h2 : c₂.isDigit = true
        · rw [if_pos h2] at h
          obtain ⟨hd, hr⟩ : digitVal c₁ * 10 + digitVal c₂ = d ∧ s'' = r := by
            constructor <;> [injection h with h'; injection h with h'] <;>
              [exact congrArg Prod.fst h'; exact congrArg Prod.snd h']
          refine ⟨[c₁, c₂], by rw [← hr]; rfl, by simp, by simp, ?_, ?_⟩
          · intro c hc
            rcases List.mem_cons.mp hc with h3 | h3
            · rw [h3]; exact h1
            · simp at h3; rw [h3]; exact h2
          · simp [digitsVal, ← hd]
        · rw [if_neg h2] at h
          obtain ⟨hd, hr⟩ : digitVal c₁ = d ∧ c₂ :: s'' = r := by
            constructor <;> [injection h with h'; injection h with h'] <;>
              [exact congrArg Prod.fst h'; exact congrArg Prod.snd h']
          exact ⟨[c₁], by rw [← hr]; rfl, by simp, by simp, by simpa using h1,
            by simp [digitsVal, hd]⟩
      · rw [if_neg h1] at h
        simp at h

theorem getnum4_sound {s : List Char} {y : Nat} {r : List Char}
    (h : getnum4 s = some (y, r)) :
    ∃ ys, s = ys ++ r ∧ ys.length = 4 ∧ (∀ c ∈ ys, c.isDigit = true) ∧
      digitsVal ys = y := by
  unfold getnum4 at h
  split at h
  next a b c d rest =>
    by_cases hd : a.isDigit = true ∧ b.isDigit = true ∧ c.isDigit = true ∧ d.isDigit = true
    · rw [if_pos hd] at h
      obtain ⟨hy, hr⟩ : digitsVal [a, b, c, d] = y ∧ rest = r := by
        constructor <;> [injection h with h'; injection h with h'] <;>
          [exact congrArg Prod.fst h'; exact congrArg Prod.snd h']
      refine ⟨[a, b, c, d], by rw [← hr]; rfl, rfl, ?_, hy⟩
      intro x hx
      obtain ⟨hda, hdb, hdc, hdd⟩ := hd
      rcases List.mem_cons.mp hx with h1 | h1
      · rw [h1]; exact hda
      rcases List.mem_cons.mp h1 with h2 | h2
      · rw [h2]; exact hdb
      rcases List.mem_cons.mp h2 with h3 | h3
      · rw [h3]; exact hdc
      · simp at h3; rw [h3]; exact hdd
    · rw [if_neg hd] at h
      simp at h
  next =>
    simp at h

theorem lookupMonth_sound :
    ∀ (names : List String) (i : Nat) (v : List Char) (m : Nat) (r : List Char),
      lookupMonth i names v = some (m, r) →
      ∃ name tok, names.get? (m - i) = some name ∧ i ≤ m ∧ m - i < names.length ∧
        v = tok ++ r ∧ tok.length = name.data.length ∧ ciEq tok name.data = true := by
  intro names
  induction names with
  | nil => intro i v m r h; simp [lookupMonth] at h
  | cons n rest ih =>
    intro i v m r h
    unfold lookupMonth at h
    by_cases hc : ciEq (v.take n.data.length) n.data = true ∧ n.data.length ≤ v.length
    · rw [if_pos hc] at h
      obtain ⟨hm, hr⟩ : i = m ∧ v.drop n.data.length = r := by
        constructor <;> [injection h with h'; injection h with h'] <;>
          [exact congrArg Prod.fst h'; exact congrArg Prod.snd h']
      subst hm
      refine ⟨n, v.take n.data.length, ?_, le_refl i, ?_, ?_, ?_, hc.1⟩
      · simp
      · simp
      · rw [← hr, List.take_append_drop]
      · rw [List.length_take]
        exact Nat.min_eq_left hc.2
    · rw [if_neg hc] at h
      obtain ⟨name, tok, h1, h2, h3, h4, h5, h6⟩ := ih (i + 1) v m r h
      refine ⟨name, tok, ?_, by omega, ?_, h4, h5, h6⟩
      · have hmi : m - i = (m - (i + 1)) + 1 := by omega
        rw [hmi]
        simpa using h1
      · simp only [List.length_cons]
        omega

theorem parseMonthDayYear_sound {names : List String} {s : List Char} {y m d : Nat}
    (h : parseMonthDayYear names s = some (y, m, d)) :
    1 ≤ m ∧ m ≤ names.length ∧ 1 ≤ d ∧ d ≤ daysIn m y ∧
    ∃ name tok sp₁ ds sp₂ ys,
      names.get? (m - 1) = some name ∧ ciEq tok name.data = true ∧
      s = tok ++ (sp₁ ++ (ds ++ (',' :: (sp₂ ++ ys)))) ∧
      (∀ c ∈ sp₁, c = ' ') ∧ (∀ c ∈ sp₂, c = ' ') ∧
      ds ≠ [] ∧ ds.length ≤ 2 ∧ (∀ c ∈ ds, c.isDigit = true) ∧ digitsVal ds = d ∧
      ys.length = 4 ∧ (∀ c ∈ ys, c.isDigit = true) ∧ digitsVal ys = y := by
  unfold parseMonthDayYear at h
  split at h
  · simp at h
  next m₀ r₁ heq₁ =>
    split at h
    · simp at h
    next r₂ heq₂ =>
      split at h
      · simp at h
      next d₀ r₃ heq₃ =>
        split at h
        next r₃' =>
          split at h
          · simp at h
          next r₄ heq₄ =>
            split at h
            next y₀ heq₅ =>
              split at h
              next hrange =>
                obtain ⟨hy, hm, hd⟩ : y₀ = y ∧ m₀ = m ∧ d₀ = d := by
                  injection h with h'
                  refine ⟨congrArg (fun p => p.1) h', ?_, ?_⟩
                  · exact congrArg (fun p => p.2.1) h'
                  · exact congrArg (fun p => p.2.2) h'
                rw [← hy, ← hm, ← hd]
                obtain ⟨name, tok, l1, l2, l3, l4, l5, l6⟩ :=
                  lookupMonth_sound names 1 s m₀ r₁ heq₁
                obtain ⟨sp₁, k1, k2⟩ := skipSpace_sound heq₂
                obtain ⟨ds, g1, g2, g3, g4, g5⟩ := getnum2_sound heq₃
                obtain ⟨sp₂, p1, p2⟩ := skipSpace_sound heq₄
                obtain ⟨ys, q1, q2, q3, q4⟩ := getnum4_sound heq₅
                rw [List.append_nil] at q1
                refine ⟨l2, by omega, hrange.1, hrange.2,
                  name, tok, sp₁, ds, sp₂, ys, l1, l6, ?_, k2, p2, g2, g3, g4, g5, q2, q3, q4⟩
                rw [l4, k1, g1, p1, q1]
              · simp at h
            next => simp at h
        next hne => simp at h

theorem tryLayouts_sound {s : List Char} {y m d : Nat}
    (h : tryLayouts s = some (y, m, d)) :
    ∃ names, (names = longMonthNames ∨ names = shortMonthNames) ∧
      parseMonthDayYear names s = some (y, m, d) := by
  unfold tryLayouts at h
  split at h
  next r heq =>
    exact ⟨longMonthNames, Or.inl rfl, by rw [heq, h]⟩
  next heq =>
    exact ⟨shortMonthNames, Or.inr rfl, h⟩

theorem stripWeekday_concat (wd rest : String) (hwd : ',' ∉ wd.data) :
    stripWeekday (wd ++ "," ++ rest) = goTrimSpace rest := by
  unfold stripWeekday
  have hdata : (wd ++ "," ++ rest).data = wd.data ++ ',' :: rest.data := by
    simp [String.data_append]
  rw [hdata, splitFirst_append ',' wd.data rest.data hwd]

/-- Claim C2: for a header of the form weekday-comma-rest whose date part
matches one of the two fixed layouts, `parseAppleDate` succeeds; the result's
year, month and day are exactly the literal components spelled in the input
(month token matching the layout's month-name table, day and year the numeric
value of their digit runs), the time-of-day is the fixed canonical noon in the
fixed UTC reference zone, and the parse is deterministic. -/
theorem c2_parseAppleDate_literal (wd rest : String) (hwd : ',' ∉ wd.data)
    (y m d : Nat) (hmatch : tryLayouts (goTrimSpace rest).data = some (y, m, d)) :
    parseAppleDate (wd ++ "," ++ rest) =
      some ⟨y, m, d, 12, 0, 0⟩ ∧
    (∃ names name tok sp₁ ds sp₂ ys,
      (names = longMonthNames ∨ names = shortMonthNames) ∧
      names.get? (m - 1) = some name ∧ ciEq tok name.data = true ∧
      (goTrimSpace rest).data = tok ++ (sp₁ ++ (ds ++ (',' :: (sp₂ ++ ys)))) ∧
      (∀ c ∈ sp₁, c = ' ') ∧ (∀ c ∈ sp₂, c = ' ') ∧
      ds ≠ [] ∧ ds.length ≤ 2 ∧ (∀ c ∈ ds, c.isDigit = true) ∧ digitsVal ds = d ∧
      ys.length = 4 ∧ (∀ c ∈ ys, c.isDigit = true) ∧ digitsVal ys = y ∧
      1 ≤ m ∧ m ≤ 12 ∧ 1 ≤ d ∧ d ≤ daysIn m y) ∧
    (∀ t₁ t₂, parseAppleDate (wd ++ "," ++ rest) = some t₁ →
      parseAppleDate (wd ++ "," ++ rest) = some t₂ → t₁ = t₂) := by
  have hstrip : stripWeekday (wd ++ "," ++ rest) = goTrimSpace rest :=
    stripWeekday_concat wd rest hwd
  refine ⟨?_, ?_, ?_⟩
  · unfold parseAppleDate
    rw [hstrip, hmatch]
  · obtain ⟨names, hnames, hp⟩ := tryLayouts_sound hmatch
    obtain ⟨hm1, hm2, hd1, hd2, name, tok, sp₁, ds, sp₂, ys, a1, a2, a3, a4, a5, a6, a7, a8,
      a9, a10, a11, a12⟩ := parseMonthDayYear_sound hp
    have hlen : names.length = 12 := by
      rcases hnames with h | h <;> rw [h] <;> rfl
    exact ⟨names, name, tok, sp₁, ds, sp₂, ys, hnames, a1, a2, a3, a4, a5, a6, a7, a8, a9,
      a10, a11, a12, hm1, by omega, hd1, hd2⟩
  · intro t₁ t₂ h₁ h₂
    rw [h₁] at h₂
    injection h₂

/-- Witness for C2 on the sample header. -/
theorem c2_witness :
    parseAppleDate ("Wednesday" ++ "," ++ " May 14, 2025") =
      some ⟨2025, 5, 14, 12, 0, 0⟩ :=
  (c2_parseAppleDate_literal "Wednesday" " May 14, 2025" (by decide) 2025 5 14 (by decide)).1

end AppleJournal
namespace AppleJournal

/-! ## Claim C3: path lemmas and the two-document scenario -/

theorem splitAllChar_no_sep (sep : Char) : ∀ (b : List Char), sep ∉ b →
    splitAllChar sep b = [b] := by
  intro b
  induction b with
  | nil => intro h; rfl
  | cons c b' ih =>
    intro h
    have hc : ¬ c = sep := fun hcc => h (hcc ▸ List.mem_cons_self c b')
    have hb : sep ∉ b' := fun hm => h (List.mem_cons_of_mem _ hm)
    simp only [splitAllChar, ih hb]
    rw [if_neg hc]

theorem splitAllChar_two (a b : List Char) (ha : '/' ∉ a) (hb : '/' ∉ b) :
    splitAllChar '/' (a ++ '/' :: b) = [a, b] := by
  induction a with
  | nil =>
    simp [splitAllChar, splitAllChar_no_sep '/' b hb]
  | cons c a' ih =>
    have hc : ¬ c = '/' := fun hcc => ha (hcc ▸ List.mem_cons_self c a')
    have ha' : '/' ∉ a' := fun hm => ha (List.mem_cons_of_mem _ hm)
    simp only [List.cons_append, splitAllChar, List.append_eq, ih ha']
    rw [if_neg hc]

/-- `filepath.Clean` is the identity on a relative two-segment path whose
segments are separator-free and not dot segments. -/
theorem goClean_two (a b : List Char)
    (ha0 : a ≠ []) (ha1 : a ≠ ['.']) (ha2 : a ≠ ['.', '.']) (hasl : '/' ∉ a)
    (hb0 : b ≠ []) (hb1 : b ≠ ['.']) (hb2 : b ≠ ['.', '.']) (hbsl : '/' ∉ b) :
    goClean ⟨a ++ '/' :: b⟩ = ⟨a ++ '/' :: b⟩ := by
  cases a with
  | nil => exact absurd rfl ha0
  | cons c a' =>
    have hc : ¬ c = '/' := fun hcc => hasl (hcc ▸ List.mem_cons_self c a')
    have hne : (⟨(c :: a') ++ '/' :: b⟩ : String) ≠ "" := by
      intro h
      have h2 := congrArg String.data h
      simp at h2
    simp only [goClean]
    rw [if_neg hne]
    simp only [show (⟨(c :: a') ++ '/' :: b⟩ : String).data = (c :: a') ++ '/' :: b from rfl,
      splitAllChar_two (c :: a') b hasl hbsl]
    simp [cleanStep, List.intersperse, ha1, ha2, hb0, hb1, hb2, hc]

/-- `filepath.Join("photos", x)` is literally `photos/<x>` when `x` is a
separator-free name longer than two characters. -/
theorem goJoin_photos (x : String) (hx : 2 < x.data.length) (hslash : '/' ∉ x.data) :
    goJoin "photos" x = "photos/" ++ x := by
  have hxe : ¬ x = "" := by
    intro h
    rw [h] at hx
    simp at hx
  have hc1 : ¬ (("photos" : String) = "" ∧ x = "") := by
    rintro ⟨h, -⟩
    simp at h
  have hc2 : ¬ ("photos" : String) = "" := by simp
  have happ : ("photos" ++ "/" ++ x : String) = ⟨"photos".data ++ '/' :: x.data⟩ := by
    apply congrArg String.mk
    simp [String.data_append]
  have hgoal : ("photos/" ++ x : String) = ⟨"photos".data ++ '/' :: x.data⟩ := by
    apply congrArg String.mk
    simp [String.data_append]
  unfold goJoin
  rw [if_neg hc1, if_neg hc2, if_neg hxe, happ, hgoal]
  have hx0 : x.data ≠ [] := by
    intro h
    rw [h] at hx
    simp at hx
  have hx1 : x.data ≠ ['.'] := by
    intro h
    rw [h] at hx
    simp at hx
  have hx2 : x.data ≠ ['.', '.'] := by
    intro h
    rw [h] at hx
    simp at hx
  exact goClean_two "photos".data x.data (by decide) (by decide) (by decide) (by decide)
    hx0 hx1 hx2 hslash

/-- Characterization of `processEntryHTML` on a document holding one date
header and one asset grid with a single, resolvable, `.png` image. -/
theorem processEntryHTML_imgDoc (ctx : Ctx) (p hdr src tz : String) (c : Nat)
    (t : GoTime) (P hash : String)
    (hne : goTrimSpace hdr ≠ "") (hd : parseAppleDate (goTrimSpace hdr) = some t)
    (hs : src ≠ "") (hP : goJoin (goDir p) src = P)
    (hext : goToLower (goExt (goBase P)) = ".png")
    (hfs : ctx.fs.fileExists P = true) (hmd5 : ctx.fs.md5res P = some hash) :
    processEntryHTML ctx p (imgDoc hdr src) tz c =
      (.ok (⟨ctx.supply c, formatRFC3339 t, formatRFC3339 t, tz, false, fallbackTitle p,
          [.photoRef (ctx.supply (c + 1))],
          [⟨hash, "png", ctx.supply (c + 1), formatRFC3339 t⟩]⟩,
        [(P, goJoin "photos" (ctx.supply (c + 1) ++ ".png"))]), c + 2) := by
  simp [processEntryHTML, processBody, processChildren, processChild, processImgs,
    processImg, convertAndAppendP, mapUpsert, entryTitleOf, imgDoc, hne, hd, hs, hP,
    hext, hfs, hmd5, show goDropDot ".png" = "png" from rfl]

/-- Claim C3: two documents referencing the same physical source image yield
two independent Photo identifiers and two independent CopyInstructions (no
cross-entry deduplication); the merged map is keyed by the (shared) source
path and the last writer wins, the copied content being the same file either
way. -/
theorem c3_same_source_no_dedup (ctx : Ctx) (p₁ p₂ hdr₁ hdr₂ src₁ src₂ tz : String)
    (c₀ : Nat) (t₁ t₂ : GoTime) (P hash : String)
    (hsup : WellFormedSupply ctx.supply)
    (hne₁ : goTrimSpace hdr₁ ≠ "") (hd₁ : parseAppleDate (goTrimSpace hdr₁) = some t₁)
    (hne₂ : goTrimSpace hdr₂ ≠ "") (hd₂ : parseAppleDate (goTrimSpace hdr₂) = some t₂)
    (hs₁ : src₁ ≠ "") (hs₂ : src₂ ≠ "")
    (hP₁ : goJoin (goDir p₁) src₁ = P) (hP₂ : goJoin (goDir p₂) src₂ = P)
    (hext : goToLower (goExt (goBase P)) = ".png")
    (hfs : ctx.fs.fileExists P = true) (hmd5 : ctx.fs.md5res P = some hash) :
    ∃ e₁ e₂ dest₁ dest₂,
      processEntryHTML ctx p₁ (imgDoc hdr₁ src₁) tz c₀ =
        (.ok (e₁, [(P, dest₁)]), c₀ + 2) ∧
      processEntryHTML ctx p₂ (imgDoc hdr₂ src₂) tz (c₀ + 2) =
        (.ok (e₂, [(P, dest₂)]), c₀ + 4) ∧
      e₁.photos.map DayOnePhoto.identifier = [ctx.supply (c₀ + 1)] ∧
      e₂.photos.map DayOnePhoto.identifier = [ctx.supply (c₀ + 3)] ∧
      ctx.supply (c₀ + 1) ≠ ctx.supply (c₀ + 3) ∧
      dest₁ ≠ dest₂ ∧
      mergeMedia [(P, dest₁)] [(P, dest₂)] = [(P, dest₂)] := by
  obtain ⟨hinj, hsl⟩ := hsup
  have h₁ := processEntryHTML_imgDoc ctx p₁ hdr₁ src₁ tz c₀ t₁ P hash
    hne₁ hd₁ hs₁ hP₁ hext hfs hmd5
  have h₂ := processEntryHTML_imgDoc ctx p₂ hdr₂ src₂ tz (c₀ + 2) t₂ P hash
    hne₂ hd₂ hs₂ hP₂ hext hfs hmd5
  have huid : ctx.supply (c₀ + 1) ≠ ctx.supply (c₀ + 3) := by
    intro h
    have := hinj h
    omega
  have hname : ∀ n : Nat, 2 < (ctx.supply n ++ ".png").data.length ∧
      '/' ∉ (ctx.supply n ++ ".png").data := by
    intro n
    constructor
    · rw [String.data_append]
      have : (".png" : String).data.length = 4 := rfl
      rw [List.length_append, this]
      omega
    · rw [String.data_append]
      intro hm
      rcases List.mem_append.mp hm with hm1 | hm1
      · exact hsl n hm1
      · simp at hm1
  have hdest : goJoin "photos" (ctx.supply (c₀ + 1) ++ ".png") ≠
      goJoin "photos" (ctx.supply (c₀ + 3) ++ ".png") := by
    rw [goJoin_photos _ (hname (c₀ + 1)).1 (hname (c₀ + 1)).2,
        goJoin_photos _ (hname (c₀ + 3)).1 (hname (c₀ + 3)).2]
    intro h
    have hdata := congrArg String.data h
    rw [String.data_append, String.data_append, String.data_append, String.data_append] at hdata
    have h2 := List.append_cancel_left hdata
    have h3 := List.append_cancel_right h2
    exact huid (congrArg String.mk h3)
  refine ⟨⟨ctx.supply c₀, formatRFC3339 t₁, formatRFC3339 t₁, tz, false, fallbackTitle p₁,
      [.photoRef (ctx.supply (c₀ + 1))],
      [⟨hash, "png", ctx.supply (c₀ + 1), formatRFC3339 t₁⟩]⟩,
    ⟨ctx.supply (c₀ + 2), formatRFC3339 t₂, formatRFC3339 t₂, tz, false, fallbackTitle p₂,
      [.photoRef (ctx.supply (c₀ + 3))],
      [⟨hash, "png", ctx.supply (c₀ + 3), formatRFC3339 t₂⟩]⟩,
    goJoin "photos" (ctx.supply (c₀ + 1) ++ ".png"),
    goJoin "photos" (ctx.supply (c₀ + 3) ++ ".png"),
    h₁, ?_, rfl, rfl, huid, hdest, ?_⟩
  · have hc : c₀ + 2 + 2 = c₀ + 4 := by omega
    rw [← hc]
    have hc2 : c₀ + 2 + 1 = c₀ + 3 := by omega
    rw [← hc2]
    exact h₂
  · simp [mergeMedia, mapUpsert]

/-- Witness for C3 with two concrete documents referencing one file. -/
theorem supplyA_wf : WellFormedSupply supplyA := by
  constructor
  · intro a b h
    have h2 := congrArg (fun s => s.data.length) h
    simpa [supplyA] using h2
  · intro n
    simp [supplyA, List.mem_replicate]

theorem c3_witness :
    ∃ e₁ e₂ dest₁ dest₂,
      processEntryHTML ctx0 "Entries/a.html"
          (imgDoc "Wednesday, May 14, 2025" "../Resources/img.png") "UTC" 0 =
        (.ok (e₁, [("Resources/img.png", dest₁)]), 2) ∧
      processEntryHTML ctx0 "Entries/b.html"
          (imgDoc "Tuesday, December 12, 2023" "../Resources/img.png") "UTC" 2 =
        (.ok (e₂, [("Resources/img.png", dest₂)]), 4) ∧
      e₁.photos.map DayOnePhoto.identifier = [ctx0.supply 1] ∧
      e₂.photos.map DayOnePhoto.identifier = [ctx0.supply 3] ∧
      ctx0.supply 1 ≠ ctx0.supply 3 ∧
      dest₁ ≠ dest₂ ∧
      mergeMedia [("Resources/img.png", dest₁)] [("Resources/img.png", dest₂)] =
        [("Resources/img.png", dest₂)] := by
  have h := c3_same_source_no_dedup ctx0 "Entries/a.html" "Entries/b.html"
    "Wednesday, May 14, 2025" "Tuesday, December 12, 2023"
    "../Resources/img.png" "../Resources/img.png" "UTC" 0
    ⟨2025, 5, 14, 12, 0, 0⟩ ⟨2023, 12, 12, 12, 0, 0⟩ "Resources/img.png"
    "d41d8cd98f00b204e9800998ecf8427e" supplyA_wf
    (by decide) (by decide) (by decide) (by decide) (by decide) (by decide)
    (by decide) (by decide) (by decide) rfl rfl
  simpa using h

end AppleJournal
namespace AppleJournal

/-! ## Claim C10: destination-path distinctness -/

theorem allowExts_suffix_free :
    ∀ e₁ ∈ allowExts, ∀ e₂ ∈ allowExts, e₁ ≠ e₂ →
      ¬ (List.IsSuffix e₁.data e₂.data ∨ List.IsSuffix e₂.data e₁.data) := by
  decide

theorem allowExts_len {e : String} (he : e ∈ allowExts) : 2 < e.data.length := by
  fin_cases he <;> decide

theorem allowExts_noslash {e : String} (he : e ∈ allowExts) : '/' ∉ e.data := by
  fin_cases he <;> decide

theorem token_ext_len (supply : Nat → String) (i : Nat) {e : String} (he : e ∈ allowExts) :
    2 < (supply i ++ e).data.length := by
  rw [String.data_append, List.length_append]
  have := allowExts_len he
  omega

theorem token_ext_noslash (supply : Nat → String) (hsl : ∀ n, '/' ∉ (supply n).data)
    (i : Nat) {e : String} (he : e ∈ allowExts) : '/' ∉ (supply i ++ e).data := by
  rw [String.data_append]
  intro hm
  rcases List.mem_append.mp hm with h | h
  · exact hsl i h
  · exact allowExts_noslash he h

/-- Two destinations built from allow-set extensions agree only when the
minted tokens (and the extensions) agree. -/
theorem dest_injective (supply : Nat → String) (hwf : WellFormedSupply supply)
    {i j : Nat} {e₁ e₂ : String} (he₁ : e₁ ∈ allowExts) (he₂ : e₂ ∈ allowExts)
    (h : goJoin "photos" (supply i ++ e₁) = goJoin "photos" (supply j ++ e₂)) :
    i = j := by
  obtain ⟨hinj, hsl⟩ := hwf
  rw [goJoin_photos _ (token_ext_len supply i he₁) (token_ext_noslash supply hsl i he₁),
      goJoin_photos _ (token_ext_len supply j he₂) (token_ext_noslash supply hsl j he₂)] at h
  have hdata := congrArg String.data h
  rw [String.data_append, String.data_append, String.data_append, String.data_append] at hdata
  have h2 := List.append_cancel_left hdata
  by_cases hee : e₁ = e₂
  · subst hee
    have h3 := List.append_cancel_right h2
    exact hinj (congrArg String.mk h3)
  · exfalso
    have hs₁ : List.IsSuffix e₁.data ((supply j).data ++ e₂.data) := ⟨(supply i).data, h2⟩
    have hs₂ : List.IsSuffix e₂.data ((supply j).data ++ e₂.data) := ⟨(supply j).data, rfl⟩
    exact allowExts_suffix_free e₁ he₁ e₂ he₂ hee
      (List.suffix_or_suffix_of_suffix hs₁ hs₂)

theorem mem_mapUpsert (m : List (String × String)) (k v : String) :
    ∀ kv ∈ mapUpsert m k v, kv.2 = v ∨ kv ∈ m := by
  intro kv hkv
  unfold mapUpsert at hkv
  split at hkv
  · obtain ⟨p, hp, hf⟩ := List.mem_map.mp hkv
    by_cases hpk : p.1 = k
    · rw [if_pos hpk] at hf
      left
      rw [← hf]
    · rw [if_neg hpk] at hf
      right
      rw [← hf]
      exact hp
  · rcases List.mem_append.mp hkv with h | h
    · right; exact h
    · left
      rw [List.mem_singleton.mp h]

theorem keys_mapUpsert (m : List (String × String)) (k v : String)
    (hk : List.Pairwise (fun a b => a.1 ≠ b.1) m) :
    List.Pairwise (fun a b => a.1 ≠ b.1) (mapUpsert m k v) := by
  unfold mapUpsert
  split
  · rw [List.pairwise_map]
    refine hk.imp_of_mem ?_
    intro a b ha hb hab
    by_cases hak : a.1 = k <;> by_cases hbk : b.1 = k <;>
      simp only [hak, hbk, if_pos, if_neg, if_true, if_false] <;> simp_all
  next hany =>
    rw [List.pairwise_append]
    refine ⟨hk, List.pairwise_singleton _ _, ?_⟩
    intro a ha b hb
    rw [List.mem_singleton.mp hb]
    intro hak
    exact hany (List.any_eq_true.mpr ⟨a, ha, by simp [hak]⟩)

theorem vals_mapUpsert (m : List (String × String)) (k v : String)
    (hk : List.Pairwise (fun a b => a.1 ≠ b.1) m)
    (hp : List.Pairwise (fun a b => a.2 ≠ b.2) m)
    (hv : ∀ kv ∈ m, kv.2 ≠ v) :
    List.Pairwise (fun a b => a.2 ≠ b.2) (mapUpsert m k v) := by
  unfold mapUpsert
  split
  · rw [List.pairwise_map]
    have hcomb := hk.and hp
    refine hcomb.imp_of_mem ?_
    intro a b ha hb hab
    by_cases hak : a.1 = k <;> by_cases hbk : b.1 = k
    · exact absurd (hak.trans hbk.symm) hab.1
    · simp only [hak, hbk, if_pos, if_neg, if_true, if_false]
      exact fun hh => hv b hb hh.symm
    · simp only [hak, hbk, if_pos, if_neg, if_true, if_false]
      exact hv a ha
    · simp only [hak, hbk, if_neg, if_false]
      exact hab.2
  · rw [List.pairwise_append]
    refine ⟨hp, List.pairwise_singleton _ _, ?_⟩
    intro a ha b hb
    rw [List.mem_singleton.mp hb]
    exact hv a ha

end AppleJournal
namespace AppleJournal

theorem mediaDestsOk_nil (supply : Nat → String) (lo hi : Nat) :
    MediaDestsOk supply lo hi [] :=
  ⟨List.Pairwise.nil, List.Pairwise.nil, by simp⟩

theorem mediaDestsOk_mono {supply : Nat → String} {lo hi lo' hi' : Nat}
    {m : List (String × String)} (h : MediaDestsOk supply lo hi m)
    (hl : lo' ≤ lo) (hh : hi ≤ hi') : MediaDestsOk supply lo' hi' m := by
  refine ⟨h.1, h.2.1, ?_⟩
  intro kv hkv
  obtain ⟨i, e, h1, h2, h3, h4⟩ := h.2.2 kv hkv
  exact ⟨i, e, by omega, by omega, h3, h4⟩

theorem mediaDestsOk_upsert (supply : Nat → String) (hwf : WellFormedSupply supply)
    {lo hi : Nat} {m : List (String × String)} (h : MediaDestsOk supply lo hi m)
    (k : String) {e : String} (he : e ∈ allowExts) (hhi : lo ≤ hi) :
    MediaDestsOk supply lo (hi + 1) (mapUpsert m k (goJoin "photos" (supply hi ++ e))) := by
  have hfresh : ∀ kv ∈ m, kv.2 ≠ goJoin "photos" (supply hi ++ e) := by
    intro kv hkv heq
    obtain ⟨i, e', h1, h2, h3, h4⟩ := h.2.2 kv hkv
    rw [h4] at heq
    have := dest_injective supply hwf h3 he heq
    omega
  refine ⟨keys_mapUpsert _ _ _ h.1, vals_mapUpsert _ _ _ h.1 h.2.1 hfresh, ?_⟩
  intro kv hkv
  rcases mem_mapUpsert m k _ kv hkv with hv | hold
  · exact ⟨hi, e, hhi, by omega, he, hv⟩
  · obtain ⟨i, e', h1, h2, h3, h4⟩ := h.2.2 kv hold
    exact ⟨i, e', h1, by omega, h3, h4⟩

set_option maxHeartbeats 1000000 in
theorem mediaDestsOk_processImg (ctx : Ctx) (hwf : WellFormedSupply ctx.supply)
    (p cd : String) (st : BuildSt) (a : Option String) (lo : Nat)
    (h : MediaDestsOk ctx.supply lo st.ctr st.media) (hlo : lo ≤ st.ctr) :
    MediaDestsOk ctx.supply lo (processImg ctx p cd st a).ctr
      (processImg ctx p cd st a).media ∧ st.ctr ≤ (processImg ctx p cd st a).ctr := by
  cases a with
  | none => exact ⟨h, le_refl _⟩
  | some src =>
    by_cases h1 : src = ""
    · constructor
      · simpa [processImg, h1] using h
      · simp [processImg, h1]
    · by_cases h2 : goToLower (goExt (goBase (goJoin (goDir p) src))) = ".png" ∨
          goToLower (goExt (goBase (goJoin (goDir p) src))) = ".jpg" ∨
          goToLower (goExt (goBase (goJoin (goDir p) src))) = ".jpeg" ∨
          goToLower (goExt (goBase (goJoin (goDir p) src))) = ".gif"
      · by_cases h3 : ctx.fs.fileExists (goJoin (goDir p) src) = true
        · have hmem : goToLower (goExt (goBase (goJoin (goDir p) src))) ∈ allowExts := by
            rcases h2 with h | h | h | h <;> rw [h] <;> decide
          cases h4 : ctx.fs.md5res (goJoin (goDir p) src) with
          | none =>
            constructor
            · simp only [processImg, h1, h2, h3, h4, not_true, not_false_iff, if_false,
                if_true, ite_false, ite_true]
              exact mediaDestsOk_mono h (le_refl _) (Nat.le_succ _)
            · simp [processImg, h1, h2, h3, h4]
          | some md5Hash =>
            constructor
            · simp only [processImg, h1, h2, h3, h4, not_true, not_false_iff, if_false,
                if_true, ite_false, ite_true]
              exact mediaDestsOk_upsert ctx.supply hwf h _ hmem hlo
            · simp [processImg, h1, h2, h3, h4]
        · exact ⟨by simpa [processImg, h1, h2, h3] using h, by simp [processImg, h1, h2, h3]⟩
      · exact ⟨by simpa [processImg, h1, h2] using h, by simp [processImg, h1, h2]⟩

theorem convertAndAppendP_media (conv : String → Except String String) (st : BuildSt) :
    (convertAndAppendP conv st).media = st.media ∧ (convertAndAppendP conv st).ctr = st.ctr := by
  unfold convertAndAppendP
  split
  · exact ⟨rfl, rfl⟩
  · split <;> exact ⟨rfl, rfl⟩

theorem processParas_media (conv : String → Except String String) :
    ∀ (l : List String) (st : BuildSt),
      (processParas conv st l).media = st.media ∧ (processParas conv st l).ctr = st.ctr := by
  intro l
  induction l with
  | nil => intro st; exact ⟨rfl, rfl⟩
  | cons a rest ih =>
    intro st
    obtain ⟨hm, hc⟩ := ih (convertAndAppendP conv { st with pending := st.pending ++ a })
    obtain ⟨hm2, hc2⟩ := convertAndAppendP_media conv { st with pending := st.pending ++ a }
    exact ⟨hm.trans hm2, hc.trans hc2⟩

theorem mediaDestsOk_processImgs (ctx : Ctx) (hwf : WellFormedSupply ctx.supply)
    (p cd : String) :
    ∀ (l : List (Option String)) (st : BuildSt) (lo : Nat),
      MediaDestsOk ctx.supply lo st.ctr st.media → lo ≤ st.ctr →
      MediaDestsOk ctx.supply lo (processImgs ctx p cd st l).ctr
        (processImgs ctx p cd st l).media ∧ st.ctr ≤ (processImgs ctx p cd st l).ctr := by
  intro l
  induction l with
  | nil => intro st lo h hlo; exact ⟨h, le_refl _⟩
  | cons a rest ih =>
    intro st lo h hlo
    obtain ⟨h1, h2⟩ := mediaDestsOk_processImg ctx hwf p cd st a lo h hlo
    obtain ⟨h3, h4⟩ := ih (processImg ctx p cd st a) lo h1 (le_trans hlo h2)
    exact ⟨h3, le_trans h2 h4⟩

theorem mediaDestsOk_processChild (ctx : Ctx) (hwf : WellFormedSupply ctx.supply)
    (p cd : String) (st : BuildSt) (ch : Child) (lo : Nat)
    (h : MediaDestsOk ctx.supply lo st.ctr st.media) (hlo : lo ≤ st.ctr) :
    MediaDestsOk ctx.supply lo (processChild ctx p cd st ch).ctr
      (processChild ctx p cd st ch).media ∧ st.ctr ≤ (processChild ctx p cd st ch).ctr := by
  cases ch with
  | pageHeader html => exact ⟨h, le_refl _⟩
  | titleDiv html => exact ⟨h, le_refl _⟩
  | assetGrid imgs =>
    obtain ⟨hm, hc⟩ := convertAndAppendP_media ctx.mdConvert st
    have h' : MediaDestsOk ctx.supply lo (convertAndAppendP ctx.mdConvert st).ctr
        (convertAndAppendP ctx.mdConvert st).media := by rw [hm, hc]; exact h
    obtain ⟨h1, h2⟩ := mediaDestsOk_processImgs ctx hwf p cd imgs
      (convertAndAppendP ctx.mdConvert st) lo h' (by rw [hc]; exact hlo)
    exact ⟨h1, by rw [← hc]; exact h2⟩
  | content c =>
    simp only [processChild]
    split
    · obtain ⟨hm, hc⟩ := convertAndAppendP_media ctx.mdConvert
        { st with pending := st.pending ++ c.outerHtml }
      rw [hm, hc]
      exact ⟨h, le_refl _⟩
    · split
      · obtain ⟨hm, hc⟩ := processParas_media ctx.mdConvert c.bodyTextKids st
        rw [hm, hc]
        exact ⟨h, le_refl _⟩
      · split
        · obtain ⟨hm, hc⟩ := processParas_media ctx.mdConvert c.pKids st
          rw [hm, hc]
          exact ⟨h, le_refl _⟩
        · exact ⟨h, le_refl _⟩

theorem mediaDestsOk_processChildren (ctx : Ctx) (hwf : WellFormedSupply ctx.supply)
    (p cd : String) :
    ∀ (l : List Child) (st : BuildSt) (lo : Nat),
      MediaDestsOk ctx.supply lo st.ctr st.media → lo ≤ st.ctr →
      MediaDestsOk ctx.supply lo (processChildren ctx p cd st l).ctr
        (processChildren ctx p cd st l).media ∧
      st.ctr ≤ (processChildren ctx p cd st l).ctr := by
  intro l
  induction l with
  | nil => intro st lo h hlo; exact ⟨h, le_refl _⟩
  | cons ch rest ih =>
    intro st lo h hlo
    obtain ⟨h1, h2⟩ := mediaDestsOk_processChild ctx hwf p cd st ch lo h hlo
    obtain ⟨h3, h4⟩ := ih (processChild ctx p cd st ch) lo h1 (le_trans hlo h2)
    exact ⟨h3, le_trans h2 h4⟩

theorem mediaDestsOk_processBody (ctx : Ctx) (hwf : WellFormedSupply ctx.supply)
    (p cd : String) (children : List Child) (ctr : Nat) :
    MediaDestsOk ctx.supply ctr (processBody ctx p cd children ctr).ctr
      (processBody ctx p cd children ctr).media ∧
    ctr ≤ (processBody ctx p cd children ctr).ctr := by
  obtain ⟨h1, h2⟩ := mediaDestsOk_processChildren ctx hwf p cd children ⟨[], "", [], [], ctr⟩
    ctr (mediaDestsOk_nil _ _ _) (le_refl _)
  obtain ⟨hm, hc⟩ := convertAndAppendP_media ctx.mdConvert
    (processChildren ctx p cd ⟨[], "", [], [], ctr⟩ children)
  unfold processBody
  rw [hm, hc]
  exact ⟨h1, h2⟩

end AppleJournal
namespace AppleJournal

theorem processEntryHTML_ctr (ctx : Ctx) (hwf : WellFormedSupply ctx.supply)
    (p : String) (doc : Doc) (tz : String) (c : Nat) :
    c ≤ (processEntryHTML ctx p doc tz c).2 := by
  by_cases h1 : goTrimSpace doc.pageHeaderText = ""
  · simp [processEntryHTML, h1]
  · cases h2 : parseAppleDate (goTrimSpace doc.pageHeaderText) with
    | none => simp [processEntryHTML, h1, h2]
    | some t =>
      have hb := (mediaDestsOk_processBody ctx hwf p (formatRFC3339 t) doc.children (c + 1)).2
      simp only [processEntryHTML, h1, h2, if_false]
      split <;> simp <;> omega

theorem mediaDestsOk_processEntryHTML (ctx : Ctx) (hwf : WellFormedSupply ctx.supply)
    (p : String) (doc : Doc) (tz : String) (c : Nat) (e : DayOneEntry)
    (m : List (String × String)) (c' : Nat)
    (h : processEntryHTML ctx p doc tz c = (.ok (e, m), c')) :
    MediaDestsOk ctx.supply c c' m ∧ c ≤ c' := by
  by_cases h1 : goTrimSpace doc.pageHeaderText = ""
  · simp [processEntryHTML, h1] at h
  · cases h2 : parseAppleDate (goTrimSpace doc.pageHeaderText) with
    | none => simp [processEntryHTML, h1, h2] at h
    | some t =>
      obtain ⟨hb1, hb2⟩ := mediaDestsOk_processBody ctx hwf p (formatRFC3339 t)
        doc.children (c + 1)
      simp only [processEntryHTML, h1, h2, if_false] at h
      split at h
      · simp at h
      · simp only [Prod.mk.injEq, Except.ok.injEq] at h
        obtain ⟨⟨-, hm⟩, hc⟩ := h
        rw [← hm, ← hc]
        exact ⟨mediaDestsOk_mono hb1 (Nat.le_succ c) (le_refl _), by omega⟩

theorem mediaDestsOk_merge (supply : Nat → String) (b : Nat) :
    ∀ (m₂ m₁ : List (String × String)),
      MediaDestsOk supply 0 b m₁ → MediaDestsOk supply 0 b m₂ →
      (∀ p ∈ m₂, ∀ q ∈ m₁, p.2 ≠ q.2) →
      MediaDestsOk supply 0 b (mergeMedia m₁ m₂) := by
  intro m₂
  induction m₂ with
  | nil => intro m₁ h1 _ _; exact h1
  | cons kv t ih =>
    intro m₁ h1 h2 hcross
    obtain ⟨hk2, hv2, hs2⟩ := h2
    obtain ⟨i, e, hi0, hib, hee, heq⟩ := hs2 kv (List.mem_cons_self _ _)
    have hup : MediaDestsOk supply 0 b (mapUpsert m₁ kv.1 kv.2) := by
      refine ⟨keys_mapUpsert _ _ _ h1.1,
        vals_mapUpsert _ _ _ h1.1 h1.2.1
          (fun q hq => (hcross kv (List.mem_cons_self _ _) q hq).symm), ?_⟩
      intro q hq
      rcases mem_mapUpsert m₁ kv.1 kv.2 q hq with hv | hold
      · exact ⟨i, e, hi0, hib, hee, by rw [hv, heq]⟩
      · exact h1.2.2 q hold
    have ht : MediaDestsOk supply 0 b t :=
      ⟨(List.pairwise_cons.mp hk2).2, (List.pairwise_cons.mp hv2).2,
       fun q hq => hs2 q (List.mem_cons_of_mem _ hq)⟩
    have hcross' : ∀ p ∈ t, ∀ q ∈ mapUpsert m₁ kv.1 kv.2, p.2 ≠ q.2 := by
      intro p hp q hq
      rcases mem_mapUpsert m₁ kv.1 kv.2 q hq with hv | hold
      · rw [hv]
        exact ((List.pairwise_cons.mp hv2).1 p hp).symm
      · exact hcross p (List.mem_cons_of_mem _ hp) q hold
    have hres := ih (mapUpsert m₁ kv.1 kv.2) hup ht hcross'
    simpa [mergeMedia] using hres

theorem mediaDestsOk_walkFold (ctx : Ctx) (tz : String) (hwf : WellFormedSupply ctx.supply) :
    ∀ (items : List WalkItem) (st st' : AggSt),
      MediaDestsOk ctx.supply 0 st.ctr st.media →
      walkFold ctx tz st items = .ok st' →
      MediaDestsOk ctx.supply 0 st'.ctr st'.media := by
  intro items
  induction items with
  | nil =>
    intro st st' h hw
    simp [walkFold] at hw
    subst hw
    exact h
  | cons it rest ih =>
    intro st st' h hw
    unfold walkFold at hw
    by_cases ha : it.accessErr = true
    · simp [ha] at hw
    · by_cases hd : it.isDir = true
      · simp [ha, hd] at hw
        exact ih st st' h hw
      · by_cases hh : hasHtmlExt it.name = true
        · simp only [ha, hd, hh, Bool.false_eq_true, if_false, if_true] at hw
          cases hp : processEntryHTML ctx it.path it.doc tz st.ctr with
          | mk res c' =>
            rw [hp] at hw
            cases res with
            | error pe =>
              simp at hw
              have hc : st.ctr ≤ c' := by
                have h2 := processEntryHTML_ctr ctx hwf it.path it.doc tz st.ctr
                rw [hp] at h2
                exact h2
              exact ih { st with ctr := c' } st' (mediaDestsOk_mono h (le_refl _) hc) hw
            | ok pr =>
              obtain ⟨e, em⟩ := pr
              obtain ⟨hm, hc⟩ := mediaDestsOk_processEntryHTML ctx hwf it.path it.doc tz
                st.ctr e em c' hp
              by_cases hg : e.text = "" ∧ e.photos = []
              · simp [hg] at hw
                exact ih { st with ctr := c' } st' (mediaDestsOk_mono h (le_refl _) hc) hw
              · simp [hg] at hw
                refine ih ⟨st.entries ++ [e], mergeMedia st.media em, c'⟩ st' ?_ hw
                have h1 : MediaDestsOk ctx.supply 0 c' st.media :=
                  mediaDestsOk_mono h (le_refl _) hc
                have h2 : MediaDestsOk ctx.supply 0 c' em :=
                  mediaDestsOk_mono hm (Nat.zero_le _) (le_refl _)
                have hcross : ∀ pp ∈ em, ∀ q ∈ st.media, pp.2 ≠ q.2 := by
                  intro pp hpm q hq heq
                  obtain ⟨i, e₁, hi1, hi2, he1, hv1⟩ := hm.2.2 pp hpm
                  obtain ⟨j, e₂, hj1, hj2, he2, hv2⟩ := h.2.2 q hq
                  rw [hv1, hv2] at heq
                  have := dest_injective ctx.supply hwf he1 he2 heq
                  omega
                exact mediaDestsOk_merge ctx.supply c' em st.media h1 h2 hcross
        · simp [ha, hd, hh] at hw
          exact ih st st' h hw

/-- Claim C10: destination paths embed freshly minted identifiers, so — since
`newDayOneUUID` never repeats a token within one run and mints separator-free
tokens — no two CopyInstructions of the run share a destination: the values of
the merged media map are pairwise distinct, and so are the values of each
entry's own map. -/
theorem c10_dest_paths_distinct :
    (∀ env : Env, WellFormedSupply env.ctx.supply →
       ∀ j med cop, runMain env = .success j med cop →
         List.Pairwise (fun a b => a.2 ≠ b.2) med ∧
         ∀ kv ∈ med, ∃ i ext, ext ∈ allowExts ∧
           kv.2 = goJoin "photos" (env.ctx.supply i ++ ext)) ∧
    (∀ (ctx : Ctx), WellFormedSupply ctx.supply →
       ∀ (p : String) (doc : Doc) (tz : String) (c : Nat) e m c',
         processEntryHTML ctx p doc tz c = (.ok (e, m), c') →
         List.Pairwise (fun a b => a.2 ≠ b.2) m ∧
         ∀ kv ∈ m, ∃ i ext, ext ∈ allowExts ∧
           kv.2 = goJoin "photos" (ctx.supply i ++ ext)) := by
  constructor
  · intro env hwf j med cop h
    unfold runMain at h
    by_cases h1 : env.unzipOk = true
    · by_cases h2 : env.entriesDirExists = true
      · simp only [h1, h2, not_true, if_false] at h
        cases hw : walkFold env.ctx env.tz ⟨[], [], 0⟩ env.walkItems with
        | error er => rw [hw] at h; simp at h
        | ok st =>
          rw [hw] at h
          cases hz : createDayOneZip env.zipEnv ⟨[("version", "1.0")], st.entries⟩ st.media with
          | error er => simp [hz] at h
          | ok copied =>
            simp [hz] at h
            obtain ⟨-, hmed, -⟩ := h
            have hres := mediaDestsOk_walkFold env.ctx env.tz hwf env.walkItems ⟨[], [], 0⟩ st
              (mediaDestsOk_nil _ _ _) hw
            rw [← hmed]
            refine ⟨hres.2.1, ?_⟩
            intro kv hkv
            obtain ⟨i, ext, -, -, hext, hv⟩ := hres.2.2 kv hkv
            exact ⟨i, ext, hext, hv⟩
      · simp [h1, h2] at h
    · simp [h1] at h
  · intro ctx hwf p doc tz c e m c' h
    obtain ⟨hm, -⟩ := mediaDestsOk_processEntryHTML ctx hwf p doc tz c e m c' h
    refine ⟨hm.2.1, ?_⟩
    intro kv hkv
    obtain ⟨i, ext, -, -, hext, hv⟩ := hm.2.2 kv hkv
    exact ⟨i, ext, hext, hv⟩

end AppleJournal

namespace AppleJournal

/-- Witness for C10: the merged map of a concrete two-document run has
pairwise-distinct destination values. -/
theorem c10_witness :
    List.Pairwise (fun a b => a.2 ≠ b.2)
      [("Resources/a.png", "photos/AA.png"), ("Resources/b.png", "photos/AAAA.png")] :=
  (c10_dest_paths_distinct.1 envC10 supplyA_wf
    ⟨[("version", "1.0")],
     [⟨"A", "2025-05-14T12:00:00Z", "2025-05-14T12:00:00Z", "UTC", false, "",
       [.photoRef "AA"],
       [⟨"d41d8cd98f00b204e9800998ecf8427e", "png", "AA", "2025-05-14T12:00:00Z"⟩]⟩,
      ⟨"AAA", "2023-12-12T12:00:00Z", "2023-12-12T12:00:00Z", "UTC", false, "",
       [.photoRef "AAAA"],
       [⟨"d41d8cd98f00b204e9800998ecf8427e", "png", "AAAA", "2023-12-12T12:00:00Z"⟩]⟩]⟩
    [("Resources/a.png", "photos/AA.png"), ("Resources/b.png", "photos/AAAA.png")]
    [("Resources/a.png", "photos/AA.png"), ("Resources/b.png", "photos/AAAA.png")]
    rfl).1

end AppleJournal
namespace AppleJournal

/-! ## Claim C5 -/

/-- Counterexample to C5 as stated: a directory-walk access error aborts the
run fatally even though none of the three listed fatal conditions holds (the
archive extracted, `Entries` exists, and the destination archive could be
created). -/
theorem c5_counterexample :
    runMain envWalkErr = .fatal .walkFail ∧
    envWalkErr.unzipOk = true ∧ envWalkErr.entriesDirExists = true ∧
    envWalkErr.zipEnv.createOk = true ∧ envWalkErr.zipEnv.journalWriteOk = true ∧
    FatalKind.walkFail ≠ FatalKind.unzipFail ∧
    FatalKind.walkFail ≠ FatalKind.entriesMissing ∧
    FatalKind.walkFail ≠ FatalKind.createZipFail :=
  ⟨rfl, rfl, rfl, rfl, rfl, by decide, by decide, by decide⟩

theorem walkFold_total (ctx : Ctx) (tz : String) :
    ∀ (items : List WalkItem) (st : AggSt),
      (∀ it ∈ items, it.accessErr = false) →
      ∃ st', walkFold ctx tz st items = .ok st' := by
  intro items
  induction items with
  | nil => intro st _; exact ⟨st, rfl⟩
  | cons it rest ih =>
    intro st hok
    have ha : it.accessErr = false := hok it (List.mem_cons_self _ _)
    have hrest : ∀ i ∈ rest, i.accessErr = false :=
      fun i hi => hok i (List.mem_cons_of_mem _ hi)
    unfold walkFold
    rw [ha]
    simp only [Bool.false_eq_true, if_false]
    by_cases hd : it.isDir = true
    · rw [if_pos hd]
      exact ih st hrest
    · rw [if_neg hd]
      by_cases hh : hasHtmlExt it.name = true
      · rw [if_pos hh]
        split
        · exact ih _ hrest
        · split
          · exact ih _ hrest
          · exact ih _ hrest
      · rw [if_neg hh]
        exact ih st hrest

/-- Claim C5, amended: the run aborts fatally exactly at the four `Fatalf`
sites — archive extraction failure, missing `Entries` directory, a
directory-walk access error (the condition the claim's list misses), and
failure to create the output archive or write `Journal.json` into it. When
none of these occurs the run always completes successfully, whatever per-unit
failures (date parsing, image resolution, markup conversion, empty entries)
the documents produce; and a media file that fails to copy is skipped without
failing the archive. -/
theorem c5_fatal_taxonomy :
    (∀ (env : Env) (k : FatalKind), runMain env = .fatal k →
       (k = .unzipFail ∧ env.unzipOk = false) ∨
       (k = .entriesMissing ∧ env.entriesDirExists = false) ∨
       (k = .walkFail ∧ walkFold env.ctx env.tz ⟨[], [], 0⟩ env.walkItems = .error ()) ∨
       (k = .createZipFail ∧
         (env.zipEnv.createOk = false ∨ env.zipEnv.journalWriteOk = false))) ∧
    (∀ env : Env, env.unzipOk = true → env.entriesDirExists = true →
       (∀ it ∈ env.walkItems, it.accessErr = false) →
       env.zipEnv.createOk = true → env.zipEnv.journalWriteOk = true →
       ∃ j med cop, runMain env = .success j med cop) ∧
    (∀ (z : ZipEnv) (journal : DayOneJournal) (media : List (String × String)),
       z.createOk = true → z.journalWriteOk = true →
       createDayOneZip z journal media =
         .ok (media.filter
           (fun kv => z.entryCreateOk kv.2 && z.openOk kv.1 && z.copyOk kv.1))) := by
  refine ⟨?_, ?_, ?_⟩
  · intro env k h
    unfold runMain at h
    by_cases h1 : env.unzipOk = true
    · by_cases h2 : env.entriesDirExists = true
      · simp only [h1, h2, not_true, if_false] at h
        cases hw : walkFold env.ctx env.tz ⟨[], [], 0⟩ env.walkItems with
        | error er =>
          rw [hw] at h
          cases er
          have hk : k = FatalKind.walkFail := by
            simp at h
            exact h.symm
          exact Or.inr (Or.inr (Or.inl ⟨hk, rfl⟩))
        | ok st =>
          rw [hw] at h
          by_cases h3 : env.zipEnv.createOk = true
          · by_cases h4 : env.zipEnv.journalWriteOk = true
            · simp [createDayOneZip, h3, h4] at h
            · simp only [createDayOneZip, h3, h4, not_true, not_false_iff, if_false,
                if_true, ite_true, ite_false] at h
              simp at h
              exact Or.inr (Or.inr (Or.inr ⟨h.symm, Or.inr (by simpa using h4)⟩))
          · simp only [createDayOneZip, h3, not_false_iff, if_true] at h
            simp at h
            exact Or.inr (Or.inr (Or.inr ⟨h.symm, Or.inl (by simpa using h3)⟩))
      · simp only [h2, not_false_iff, if_true, h1, not_true, if_false] at h
        simp at h
        exact Or.inr (Or.inl ⟨h.symm, by simpa using h2⟩)
    · simp only [h1, not_false_iff, if_true] at h
      simp at h
      exact Or.inl ⟨h.symm, by simpa using h1⟩
  · intro env h1 h2 h3 h4 h5
    obtain ⟨st, hst⟩ := walkFold_total env.ctx env.tz env.walkItems ⟨[], [], 0⟩ h3
    refine ⟨⟨[("version", "1.0")], st.entries⟩, st.media,
      st.media.filter
        (fun kv => env.zipEnv.entryCreateOk kv.2 && env.zipEnv.openOk kv.1 &&
          env.zipEnv.copyOk kv.1), ?_⟩
    unfold runMain
    rw [h1, h2]
    simp only [not_true, if_false]
    rw [hst]
    simp [createDayOneZip, h4, h5]
  · intro z journal media h1 h2
    simp [createDayOneZip, h1, h2]

/-- Witness for C5 (amended): a run with one unparseable document and one
good document completes successfully. -/
theorem c5_witness :
    ∃ j med cop, runMain envMixed = .success j med cop :=
  c5_fatal_taxonomy.2.1 envMixed rfl rfl (by decide) rfl rfl

end AppleJournal
